import Mathlib

/-!
# Formal model of the docify retrieval–generation–verification pipeline

A shallow embedding of the core services of the `docify` backend
(`src/backend/app/services/…` and `src/backend/app/tasks/…`), together with
theorems settling the specification claims about them.

Conventions used throughout:

* Python `float` scores are modelled as `ℚ` (all arithmetic in the sources is
  exact decimal arithmetic on small literals, so `ℚ` is faithful).
* Python `int` token budgets are modelled as `ℤ` where the code can produce
  negative intermediate values (`ContextWindow.available_tokens`), `ℕ` elsewhere.
* Database rows are modelled as oracle functions `ℕ → Option …` (a resource id
  to the stored record); the LLM is modelled as an `Except String String`
  (an exception or the response text).
* CPython's `sorted(…, key=…, reverse=True)` is a stable descending sort; it is
  modelled by `pySortDesc`, which produces exactly the same list (the unique
  descending permutation preserving input order among equal keys).
-/

namespace Docify

/-! ## Python-style primitives -/

/-- Python `str.lower()` (character-wise; the sources only lowercase for
comparisons). -/
def pyLower (s : String) : String := String.mk (s.toList.map Char.toLower)

/-- Python `str.strip()`: drop whitespace from both ends. -/
def pyTrim (s : String) : String :=
  String.mk (((s.toList.dropWhile Char.isWhitespace).reverse.dropWhile
    Char.isWhitespace).reverse)

def wordsGo : List Char → List Char → List String
  | [], acc => if acc = [] then [] else [String.mk acc.reverse]
  | c :: rest, acc =>
    if Char.isWhitespace c then
      if acc = [] then wordsGo rest []
      else String.mk acc.reverse :: wordsGo rest []
    else wordsGo rest (c :: acc)

/-- Python `str.split()` with no argument: split on whitespace runs, dropping
empty pieces. -/
def pySplit (s : String) : List String := wordsGo s.toList []

def splitChGo (sep : Char) : List Char → List Char → List String
  | [], acc => [String.mk acc.reverse]
  | c :: rest, acc =>
    if c = sep then String.mk acc.reverse :: splitChGo sep rest []
    else splitChGo sep rest (c :: acc)

/-- Python `str.split(sep)` for a one-character separator (keeps empty
pieces). -/
def pySplitCh (s : String) (sep : Char) : List String := splitChGo sep s.toList []

/-- Python `needle in haystack` substring test. -/
def pyIn (needle haystack : String) : Bool :=
  haystack.toList.tails.any (fun t => needle.toList.isPrefixOf t)

/-- Python `a or b` for an optional float `a` and fallback `b`: `None` and
`0.0` are falsy, so both fall back to `b`. -/
def pyOr (a : Option ℚ) (b : ℚ) : ℚ :=
  match a with
  | none => b
  | some v => if v = 0 then b else v

/-- Insert `a` into a list that is sorted descending by `key`, placing it
after every element whose key is `≥ key a`.  This is the stable placement of
CPython's `sorted(…, reverse=True)`. -/
def insertDescBy [LinearOrder β] (key : α → β) (a : α) : List α → List α
  | [] => [a]
  | b :: l => if key a ≤ key b then b :: insertDescBy key a l else a :: b :: l

/-- CPython `sorted(l, key=key, reverse=True)`: stable descending sort. -/
def pySortDesc [LinearOrder β] (key : α → β) (l : List α) : List α :=
  l.foldl (fun acc a => insertDescBy key a acc) []

/-- Insert `a` into a list that is sorted ascending by `key`, placing it after
every element whose key is `≤ key a` (stable placement). -/
def insertAscBy [LinearOrder β] (key : α → β) (a : α) : List α → List α
  | [] => [a]
  | b :: l => if key b ≤ key a then b :: insertAscBy key a l else a :: b :: l

/-- CPython `sorted(l, key=key)`: stable ascending sort. -/
def pySortAsc [LinearOrder β] (key : α → β) (l : List α) : List α :=
  l.foldl (fun acc a => insertAscBy key a acc) []

theorem mem_insertDescBy [LinearOrder β] (key : α → β) (a x : α) :
    ∀ l : List α, x ∈ insertDescBy key a l ↔ x = a ∨ x ∈ l
  | [] => by simp [insertDescBy]
  | b :: l => by
    simp only [insertDescBy]
    split
    · simp only [List.mem_cons, mem_insertDescBy key a x l]
      tauto
    · simp only [List.mem_cons]

theorem insertDescBy_perm [LinearOrder β] (key : α → β) (a : α) :
    ∀ l : List α, List.Perm (insertDescBy key a l) (a :: l)
  | [] => List.Perm.refl _
  | b :: l => by
    simp only [insertDescBy]
    split
    · exact ((insertDescBy_perm key a l).cons b).trans (List.Perm.swap a b l)
    · exact List.Perm.refl _

theorem pySortDesc_perm [LinearOrder β] (key : α → β) (l : List α) :
    List.Perm (pySortDesc key l) l := by
  suffices h : ∀ (l acc : List α),
      List.Perm (l.foldl (fun acc a => insertDescBy key a acc) acc) (acc ++ l) by
    simpa using h l []
  intro l
  induction l with
  | nil => intro acc; simp
  | cons a l ih =>
    intro acc
    simp only [List.foldl_cons]
    refine (ih (insertDescBy key a acc)).trans ?_
    refine (((insertDescBy_perm key a acc)).append_right l).trans ?_
    exact List.perm_middle.symm

theorem sorted_insertDescBy [LinearOrder β] (key : α → β) (a : α)
    (l : List α) (h : l.Pairwise (fun x y => key y ≤ key x)) :
    (insertDescBy key a l).Pairwise (fun x y => key y ≤ key x) := by
  induction l with
  | nil => simp [insertDescBy]
  | cons b l ih =>
    rw [List.pairwise_cons] at h
    simp only [insertDescBy]
    split
    · rename_i hab
      rw [List.pairwise_cons]
      constructor
      · intro x hx
        rcases (mem_insertDescBy key a x l).mp hx with rfl | hx
        · exact hab
        · exact h.1 x hx
      · exact ih h.2
    · rename_i hab
      push_neg at hab
      rw [List.pairwise_cons]
      refine ⟨?_, List.pairwise_cons.mpr h⟩
      intro x hx
      rcases List.mem_cons.mp hx with rfl | hx
      · exact le_of_lt hab
      · exact le_trans (h.1 x hx) (le_of_lt hab)

theorem sorted_pySortDesc [LinearOrder β] (key : α → β) (l : List α) :
    (pySortDesc key l).Pairwise (fun x y => key y ≤ key x) := by
  suffices h : ∀ (l acc : List α),
      acc.Pairwise (fun x y => key y ≤ key x) →
      (l.foldl (fun acc a => insertDescBy key a acc) acc).Pairwise
        (fun x y => key y ≤ key x) by
    exact h l [] (by simp)
  intro l
  induction l with
  | nil => intro acc hacc; simpa using hacc
  | cons a l ih =>
    intro acc hacc
    exact ih _ (sorted_insertDescBy key a acc hacc)

theorem mem_insertAscBy [LinearOrder β] (key : α → β) (a x : α) :
    ∀ l : List α, x ∈ insertAscBy key a l ↔ x = a ∨ x ∈ l
  | [] => by simp [insertAscBy]
  | b :: l => by
    simp only [insertAscBy]
    split
    · simp only [List.mem_cons, mem_insertAscBy key a x l]
      tauto
    · simp only [List.mem_cons]

theorem insertAscBy_perm [LinearOrder β] (key : α → β) (a : α) :
    ∀ l : List α, List.Perm (insertAscBy key a l) (a :: l)
  | [] => List.Perm.refl _
  | b :: l => by
    simp only [insertAscBy]
    split
    · exact ((insertAscBy_perm key a l).cons b).trans (List.Perm.swap a b l)
    · exact List.Perm.refl _

theorem pySortAsc_perm [LinearOrder β] (key : α → β) (l : List α) :
    List.Perm (pySortAsc key l) l := by
  suffices h : ∀ (l acc : List α),
      List.Perm (l.foldl (fun acc a => insertAscBy key a acc) acc) (acc ++ l) by
    simpa using h l []
  intro l
  induction l with
  | nil => intro acc; simp
  | cons a l ih =>
    intro acc
    simp only [List.foldl_cons]
    refine (ih (insertAscBy key a acc)).trans ?_
    refine (((insertAscBy_perm key a acc)).append_right l).trans ?_
    exact List.perm_middle.symm

theorem insertAscBy_append_of_le [LinearOrder β] (key : α → β) (a : α) :
    ∀ acc : List α, (∀ x ∈ acc, key x ≤ key a) →
      insertAscBy key a acc = acc ++ [a]
  | [], _ => by simp [insertAscBy]
  | b :: acc, h => by
    simp only [insertAscBy]
    rw [if_pos (h b (by simp))]
    simp only [List.cons_append, List.cons.injEq, true_and]
    exact insertAscBy_append_of_le key a acc (fun x hx => h x (by simp [hx]))

/-- If the input is already (weakly) ascending by `key`, the stable ascending
sort is the identity. -/
theorem pySortAsc_of_sorted [LinearOrder β] (key : α → β) :
    ∀ l : List α, l.Pairwise (fun x y => key x ≤ key y) → pySortAsc key l = l := by
  suffices h : ∀ (l acc : List α),
      (∀ x ∈ acc, ∀ y ∈ l, key x ≤ key y) →
      l.Pairwise (fun x y => key x ≤ key y) →
      l.foldl (fun acc a => insertAscBy key a acc) acc = acc ++ l by
    intro l hl
    simpa using h l [] (by simp) hl
  intro l
  induction l with
  | nil => intro acc _ _; simp
  | cons a l ih =>
    intro acc hcross hl
    rw [List.pairwise_cons] at hl
    have hins : insertAscBy key a acc = acc ++ [a] :=
      insertAscBy_append_of_le key a acc (fun x hx => hcross x hx a (by simp))
    simp only [List.foldl_cons, hins]
    rw [ih (acc ++ [a]) ?_ hl.2]
    · simp
    · intro x hx y hy
      rcases List.mem_append.mp hx with hx | hx
      · exact hcross x hx y (by simp [hy])
      · simp only [List.mem_singleton] at hx
        subst hx
        exact hl.1 y hy


/-! ## Data model

`SearchResult` mirrors `app/schemas/search.py`'s transient search result as
used by `reranking.py` and `context_assembly.py`.  Ids are natural numbers
standing for UUIDs.  `ResourceRec` carries the fields of a `Resource` row that
the reranker reads; `days_old` is the age `(datetime.utcnow() - created_at).days`
at scoring time (`none` when `created_at` is missing), and the `has_meta*`
flags model the truthiness of `resource_metadata` and its `title`/`author`/
`pages` keys. -/

structure ResourceRec where
  citation_count : ℕ
  days_old : Option ℤ
  resource_type : String
  has_meta : Bool
  has_meta_title : Bool
  has_meta_author : Bool
  has_meta_pages : Bool
deriving Repr, DecidableEq

structure SearchResult where
  chunk_id : ℕ
  resource_id : ℕ
  resource_title : String
  content : String
  score : ℚ
  source_type : String
  section_title : Option String
  page : Option ℕ
  semantic : ℚ := 0
  keyword : ℚ := 0
  graph : ℚ := 0
  rerank_base : ℚ := 0
  rerank_citation : ℚ := 0
  rerank_recency : ℚ := 0
  rerank_specificity : ℚ := 0
  rerank_quality : ℚ := 0
  final_score : Option ℚ := none
  conflicts : List ℕ := []
  conflict_count : ℕ := 0
deriving Repr, DecidableEq

/-- A database of resources, as an oracle from resource id to row. -/
abbrev ResourceDb := ℕ → Option ResourceRec

/-! ## Reranking service (`app/services/reranking.py`) -/

/-- `ReRankingService._score_citation_frequency`.  Note that the normaliser is
`len(set(r.resource_id for r in all_results if r.resource_id != result.resource_id))`,
the number of distinct OTHER resources in the candidate set, and that a
missing resource row returns `0.0` (the `except` branch returning `0.5` is
unreachable for pure data access). -/
def score_citation_frequency (db : ResourceDb) (result : SearchResult)
    (all_results : List SearchResult) : ℚ :=
  match db result.resource_id with
  | none => 0
  | some res =>
    let citation_count : ℚ := res.citation_count
    let max_citations : ℕ :=
      ((all_results.filter (fun r => r.resource_id ≠ result.resource_id)).map
        (fun r => r.resource_id)).dedup.length
    if max_citations = 0 then 0.5
    else min 1 (citation_count / (max max_citations 1 : ℕ))

/-- `ReRankingService._score_recency`: step function on the resource age in
days; `0.5` when the row or its `created_at` is missing. -/
def score_recency (db : ResourceDb) (result : SearchResult) : ℚ :=
  match db result.resource_id with
  | none => 0.5
  | some res =>
    match res.days_old with
    | none => 0.5
    | some days_old =>
      if days_old < 30 then 1.0
      else if days_old < 90 then 0.9
      else if days_old < 180 then 0.8
      else if days_old < 365 then 0.6
      else if days_old < 730 then 0.4
      else 0.2

/-- `ReRankingService._score_specificity`: `1.0` on a verbatim (lowercased)
query hit, otherwise the fraction of distinct query terms present among the
chunk's terms.  An empty term set raises `ZeroDivisionError` in Python, which
the handler converts to `0.5`. -/
def score_specificity (result : SearchResult) (query : String) : ℚ :=
  let content := pyLower result.content
  let query_lower := pyLower query
  if pyIn query_lower content then 1.0
  else
    let query_terms := (pySplit query_lower).dedup
    let content_terms := (pySplit content).dedup
    if query_terms.length = 0 then 0.5
    else ((query_terms.filter (fun t => t ∈ content_terms)).length : ℚ) / query_terms.length

/-- The resource-type table of `ReRankingService._score_source_quality`. -/
def type_score (t : String) : ℚ :=
  if t = "pdf" ∨ t = "research" ∨ t = "academic" then 1.0
  else if t = "word" ∨ t = "docx" ∨ t = "markdown" ∨ t = "md" then 0.8
  else if t = "excel" ∨ t = "xlsx" ∨ t = "csv" then 0.6
  else if t = "text" ∨ t = "txt" then 0.5
  else if t = "url" ∨ t = "web" then 0.7
  else 0.5

/-- `ReRankingService._score_source_quality`. -/
def score_source_quality (db : ResourceDb) (result : SearchResult) : ℚ :=
  match db result.resource_id with
  | none => 0.5
  | some res =>
    let base_score := type_score (pyLower res.resource_type)
    let metadata_boost : ℚ :=
      if res.has_meta then
        (if res.has_meta_title then 0.05 else 0) +
        (if res.has_meta_author then 0.05 else 0) +
        (if res.has_meta_pages then 0.05 else 0)
      else 0
    min 1 (base_score + metadata_boost)

/-- The per-result scoring loop of `ReRankingService.rerank` (factors 1–5 and
the weighted `final_score`).  `all_results` is the full candidate list passed
to `_score_citation_frequency`; the fields that function reads are never
mutated by the loop, so passing the input list is faithful. -/
def compute_rerank_scores (db : ResourceDb) (query : String)
    (all_results : List SearchResult) (r : SearchResult) : SearchResult :=
  let base := r.score * 0.40
  let citation := score_citation_frequency db r all_results * 0.15
  let recency := score_recency db r * 0.15
  let specificity := score_specificity r query * 0.15
  let quality := score_source_quality db r * 0.15
  { r with
    rerank_base := base, rerank_citation := citation, rerank_recency := recency,
    rerank_specificity := specificity, rerank_quality := quality,
    final_score := some (base + citation + recency + specificity + quality) }

/-! Python-dict operations for the conflicts map (`Dict[UUID, List[UUID]]`),
modelled as an association list in insertion order. -/

def dictContains (m : List (ℕ × List ℕ)) (k : ℕ) : Bool :=
  m.any (fun p => p.1 = k)

def dictGetD (m : List (ℕ × List ℕ)) (k : ℕ) : List ℕ :=
  ((m.find? (fun p => p.1 = k)).map (fun p => p.2)).getD []

def dictSet (m : List (ℕ × List ℕ)) (k : ℕ) (v : List ℕ) : List (ℕ × List ℕ) :=
  if dictContains m k then m.map (fun p => if p.1 = k then (k, v) else p)
  else m ++ [(k, v)]

/-- The conflict oracle: the outcome of `_check_conflict` for a pair of
results ("YES" in the LLM answer; `False` on any exception). -/
abbrev ConflictOracle := SearchResult → SearchResult → Bool

/-- The nested pair loop of `ReRankingService._detect_conflicts` over the top
results (note the unconditional `conflicts[result1.chunk_id] = []` at the head
of each outer iteration). -/
def detect_conflicts_go (oracle : ConflictOracle) :
    List SearchResult → List (ℕ × List ℕ) → List (ℕ × List ℕ)
  | [], m => m
  | r1 :: rest, m =>
    let m := dictSet m r1.chunk_id []
    let m := rest.foldl (fun m r2 =>
      if r1.resource_id = r2.resource_id then m
      else if oracle r1 r2 then
        let m := dictSet m r1.chunk_id (dictGetD m r1.chunk_id ++ [r2.chunk_id])
        let m := if dictContains m r2.chunk_id then m else dictSet m r2.chunk_id []
        dictSet m r2.chunk_id (dictGetD m r2.chunk_id ++ [r1.chunk_id])
      else m) m
    detect_conflicts_go oracle rest m

/-- `ReRankingService._detect_conflicts`: only the top 5 results are examined. -/
def detect_conflicts (oracle : ConflictOracle) (results : List SearchResult) :
    List (ℕ × List ℕ) :=
  detect_conflicts_go oracle (results.take 5) []

/-- `ReRankingService.rerank`: score all factors, optionally detect conflicts
and apply the 5%-per-conflict penalty, then sort by `final_score` descending. -/
def rerank (db : ResourceDb) (oracle : ConflictOracle)
    (results : List SearchResult) (query : String) (detect : Bool) :
    List SearchResult :=
  if results.isEmpty then []
  else
    let scored := results.map (compute_rerank_scores db query results)
    let withConflicts :=
      if detect then
        let cmap := detect_conflicts oracle scored
        scored.map (fun r =>
          if dictContains cmap r.chunk_id then
            let cl := dictGetD cmap r.chunk_id
            { r with conflicts := cl, conflict_count := cl.length,
                     final_score :=
                       some (r.final_score.getD 0 * (1 - (cl.length : ℚ) * 0.05)) }
          else { r with conflicts := [], conflict_count := 0 })
      else scored
    pySortDesc (fun r => r.final_score.getD 0) withConflicts

/-! ## Concrete fixtures shared by witnesses and counterexamples -/

def sampleResource1 : ResourceRec :=
  { citation_count := 5, days_old := some 10, resource_type := "pdf",
    has_meta := true, has_meta_title := true, has_meta_author := false,
    has_meta_pages := false }

def sampleResource2 : ResourceRec :=
  { citation_count := 10, days_old := none, resource_type := "txt",
    has_meta := false, has_meta_title := false, has_meta_author := false,
    has_meta_pages := false }

def sampleDb : ResourceDb :=
  fun i => if i = 1 then some sampleResource1
           else if i = 2 then some sampleResource2 else none

def sampleResult1 : SearchResult :=
  { chunk_id := 11, resource_id := 1, resource_title := "A",
    content := "alpha beta", score := 0.6, source_type := "pdf",
    section_title := none, page := none }

def sampleResult2 : SearchResult :=
  { chunk_id := 22, resource_id := 2, resource_title := "B",
    content := "gamma delta", score := 0.5, source_type := "txt",
    section_title := none, page := none }

/-! ## Claim C9: rerank returns a permutation of its input -/

theorem compute_rerank_scores_chunk_id (db : ResourceDb) (query : String)
    (all : List SearchResult) (r : SearchResult) :
    (compute_rerank_scores db query all r).chunk_id = r.chunk_id := rfl

/-- C9: for every non-empty input list, `rerank` returns a permutation of its
input: the multiset of chunk ids of the output equals that of the input, with
no result dropped and none added, regardless of conflict detection. -/
theorem rerank_perm_of_input (db : ResourceDb) (oracle : ConflictOracle)
    (results : List SearchResult) (query : String) (detect : Bool)
    (hne : results ≠ []) :
    List.Perm ((rerank db oracle results query detect).map (fun r => r.chunk_id))
      (results.map (fun r => r.chunk_id)) := by
  unfold rerank
  rw [if_neg (by simpa using hne)]
  set scored := results.map (compute_rerank_scores db query results) with hscored
  set withConflicts :=
    (if detect then
      (fun cmap => scored.map (fun r =>
        if dictContains cmap r.chunk_id then
          let cl := dictGetD cmap r.chunk_id
          { r with conflicts := cl, conflict_count := cl.length,
                   final_score :=
                     some (r.final_score.getD 0 * (1 - (cl.length : ℚ) * 0.05)) }
        else { r with conflicts := [], conflict_count := 0 }))
        (detect_conflicts oracle scored)
    else scored) with hwc
  have hperm :
      List.Perm ((pySortDesc (fun r => r.final_score.getD 0) withConflicts).map
        (fun r => r.chunk_id)) (withConflicts.map (fun r => r.chunk_id)) :=
    (pySortDesc_perm (fun r => r.final_score.getD 0) withConflicts).map _
  have hids : withConflicts.map (fun r => r.chunk_id) =
      results.map (fun r => r.chunk_id) := by
    rw [hwc]
    have hscored_ids : scored.map (fun r => r.chunk_id) =
        results.map (fun r => r.chunk_id) := by
      rw [hscored, List.map_map]; rfl
    split
    · rw [List.map_map]
      calc (scored.map fun r => ((if dictContains (detect_conflicts oracle scored) r.chunk_id then _ else _) : SearchResult).chunk_id)
          = scored.map (fun r => r.chunk_id) := by
            apply List.map_congr_left
            intro r _
            dsimp only
            split <;> rfl
        _ = results.map (fun r => r.chunk_id) := hscored_ids
    · exact hscored_ids
  rw [hids] at hperm
  exact hperm

theorem rerank_perm_of_input_witness :
    [sampleResult1, sampleResult2] ≠ [] ∧
      List.Perm
        ((rerank sampleDb (fun _ _ => false) [sampleResult1, sampleResult2]
            "alpha" true).map (fun r => r.chunk_id))
        ([sampleResult1, sampleResult2].map (fun r => r.chunk_id)) :=
  ⟨by simp,
   rerank_perm_of_input sampleDb (fun _ _ => false) [sampleResult1, sampleResult2]
     "alpha" true (by simp)⟩

/-! ## Claim C4: the citation-frequency factor -/

/-- The citation-frequency factor as the claim states it (stated for
comparison with `score_citation_frequency`): the resource's `citation_count`
normalised by the maximum citation count over the candidate set, `0.5` when
the candidate set has only one distinct resource, and `0.5` when the resource
record is missing. -/
def claim_citation_frequency (db : ResourceDb) (result : SearchResult)
    (all_results : List SearchResult) : ℚ :=
  match db result.resource_id with
  | none => 0.5
  | some res =>
    let distinct := (all_results.map (fun r => r.resource_id)).dedup
    if distinct.length ≤ 1 then 0.5
    else
      let maxcc : ℕ :=
        (distinct.map (fun i => ((db i).map (fun x => x.citation_count)).getD 0)).foldr max 0
      (res.citation_count : ℚ) / maxcc

/-- C4 counterexample: with two resources of citation counts 5 and 10, the
code's factor for the first resource is `min 1 (5/1) = 1` (normalised by the
count of distinct other resources), not `5/10 = 1/2` as the claim would have
it; and for a missing resource record the code returns `0`, not `0.5`. -/
theorem score_citation_frequency_counterexample :
    score_citation_frequency sampleDb sampleResult1 [sampleResult1, sampleResult2] = 1 ∧
    claim_citation_frequency sampleDb sampleResult1 [sampleResult1, sampleResult2] = 1/2 ∧
    score_citation_frequency sampleDb sampleResult1 [sampleResult1, sampleResult2] ≠
      claim_citation_frequency sampleDb sampleResult1 [sampleResult1, sampleResult2] ∧
    score_citation_frequency (fun _ => none) sampleResult1 [sampleResult1, sampleResult2] = 0 := by
  have h1 : score_citation_frequency sampleDb sampleResult1
      [sampleResult1, sampleResult2] = 1 := by
    norm_num [score_citation_frequency, sampleDb, sampleResult1, sampleResult2,
      sampleResource1, sampleResource2, List.dedup_cons_of_not_mem]
  have h2 : claim_citation_frequency sampleDb sampleResult1
      [sampleResult1, sampleResult2] = 1/2 := by
    norm_num [claim_citation_frequency, sampleDb, sampleResult1, sampleResult2,
      sampleResource1, sampleResource2, List.dedup_cons_of_not_mem]
  refine ⟨h1, h2, ?_, ?_⟩
  · rw [h1, h2]; norm_num
  · norm_num [score_citation_frequency]

/-- C4 amended: for a candidate in the set, the factor equals the resource's
citation count divided by the number of distinct resources other than its own
(capped at 1); it is `0.5` when the candidate set carries a single distinct
resource, and `0.0` when the resource record is missing. -/
theorem score_citation_frequency_amended (db : ResourceDb)
    (result : SearchResult) (all_results : List SearchResult)
    (hmem : result ∈ all_results) :
    (∀ res, db result.resource_id = some res →
      score_citation_frequency db result all_results =
        if (all_results.map (fun r => r.resource_id)).dedup.length = 1 then 0.5
        else min 1 ((res.citation_count : ℚ) /
          (((all_results.map (fun r => r.resource_id)).dedup.length - 1 : ℕ) : ℚ))) ∧
    (db result.resource_id = none →
      score_citation_frequency db result all_results = 0) := by
  constructor
  · intro res hdb
    simp only [score_citation_frequency, hdb]
    have hxL : result.resource_id ∈ all_results.map (fun r => r.resource_id) :=
      List.mem_map_of_mem _ hmem
    have hmap : (all_results.filter
        (fun r => r.resource_id ≠ result.resource_id)).map (fun r => r.resource_id) =
        (all_results.map (fun r => r.resource_id)).filter
          (fun i => i ≠ result.resource_id) := by
      rw [List.filter_map]
      rfl
    have hcount : ((all_results.filter
        (fun r => r.resource_id ≠ result.resource_id)).map
          (fun r => r.resource_id)).dedup.length =
        (all_results.map (fun r => r.resource_id)).dedup.length - 1 := by
      rw [hmap, ← List.card_toFinset, ← List.card_toFinset, List.toFinset_filter]
      have herase : ((all_results.map (fun r => r.resource_id)).toFinset.filter
          (fun i => (i ≠ result.resource_id : Bool) = true)) =
          (all_results.map (fun r => r.resource_id)).toFinset.erase result.resource_id := by
        rw [← Finset.filter_ne']
        apply Finset.filter_congr
        intro i _
        simp
      rw [herase, Finset.card_erase_of_mem (List.mem_toFinset.mpr hxL)]
    have hlen1 : 1 ≤ (all_results.map (fun r => r.resource_id)).dedup.length := by
      have : result.resource_id ∈ (all_results.map (fun r => r.resource_id)).dedup :=
        List.mem_dedup.mpr hxL
      exact List.length_pos.mpr (List.ne_nil_of_mem this)
    rw [hcount]
    rcases Nat.lt_or_ge 1 ((all_results.map (fun r => r.resource_id)).dedup.length)
      with hgt | hle
    · rw [if_neg (by omega), if_neg (by omega)]
      have hmax : max ((all_results.map (fun r => r.resource_id)).dedup.length - 1) 1 =
          (all_results.map (fun r => r.resource_id)).dedup.length - 1 := by omega
      rw [hmax]
    · have hone : (all_results.map (fun r => r.resource_id)).dedup.length = 1 := by omega
      rw [hone]
      simp
  · intro hdb
    simp only [score_citation_frequency, hdb]

theorem score_citation_frequency_amended_witness :
    sampleResult1 ∈ [sampleResult1, sampleResult2] ∧
      score_citation_frequency sampleDb sampleResult1 [sampleResult1, sampleResult2] =
        if (([sampleResult1, sampleResult2].map (fun r => r.resource_id)).dedup.length = 1)
        then 0.5
        else min 1 ((sampleResource1.citation_count : ℚ) /
          ((([sampleResult1, sampleResult2].map (fun r => r.resource_id)).dedup.length - 1 : ℕ) : ℚ)) :=
  ⟨by simp,
   (score_citation_frequency_amended sampleDb sampleResult1
      [sampleResult1, sampleResult2] (by simp)).1 sampleResource1 rfl⟩

/-! ## Context assembly service (`app/services/context_assembly.py`) -/

/-- Python `s[:n]` on strings. -/
def pySlice (s : String) (n : ℕ) : String := String.mk (s.toList.take n)

/-- `ContextAssemblyService._estimate_tokens`: `len(text) // CHARS_PER_TOKEN`
with `CHARS_PER_TOKEN = 4`. -/
def estimateTokens (text : String) : ℕ := text.length / 4

/-- The chunk dictionary built by `_fill_context_window` for one result. -/
structure ChunkData where
  chunk_id : ℕ
  resource_id : ℕ
  title : String
  source_type : String
  content : String
  score : ℚ
  token_count : ℤ
  section_title : Option String
  page : Option ℕ
  truncated : Bool := false
deriving Repr, DecidableEq

def chunk_data_of (r : SearchResult) (tc : ℤ) : ChunkData :=
  { chunk_id := r.chunk_id, resource_id := r.resource_id,
    title := r.resource_title, source_type := r.source_type,
    content := r.content, score := pyOr r.final_score r.score,
    token_count := tc, section_title := r.section_title, page := r.page }

/-- The truncated chunk built when a result does not fit but more than 100
tokens remain: content cut to `available * 4` characters plus an ellipsis,
`token_count` set to the remaining budget, `truncated` set. -/
def truncated_chunk_of (r : SearchResult) (available : ℤ) : ChunkData :=
  { chunk_data_of r available with
      content := pySlice r.content (available * 4).toNat ++ "...",
      truncated := true }

/-- The loop of `ContextAssemblyService._fill_context_window` together with
the `ContextWindow` state: `used` is `ContextWindow.used_tokens` and
`max_tokens - used - 200` is `ContextWindow.available_tokens` (the window
reserves `metadata_tokens = 200` inside its own budget).  A chunk is added
while it fits; the first chunk that does not fit is truncated when more than
100 tokens remain (and the loop breaks), otherwise dropped (and the loop
breaks). -/
def fill_go (max_tokens : ℤ) (used : ℤ) : List SearchResult → List ChunkData
  | [] => []
  | r :: rest =>
    let token_count : ℤ := estimateTokens r.content
    let available := max_tokens - used - 200
    if token_count ≤ available then
      chunk_data_of r token_count :: fill_go max_tokens (used + token_count) rest
    else if 100 < available then [truncated_chunk_of r available]
    else []

/-- `ContextAssemblyService._fill_context_window`. -/
def fill_context_window (results : List SearchResult) (max_tokens : ℤ) :
    List ChunkData :=
  fill_go max_tokens 0 results

/-- The content signature of `_deduplicate_results`: first 200 characters,
lowercased and stripped.  (Python hashes the signature; equal signatures have
equal hashes, and the embedding identifies the hash with the signature.) -/
def content_signature (s : String) : String := pyTrim (pyLower (pySlice s 200))

def dedup_go : List SearchResult → List String → List SearchResult
  | [], _ => []
  | r :: rest, seen =>
    let sig := content_signature r.content
    if sig ∈ seen then dedup_go rest seen
    else r :: dedup_go rest (sig :: seen)

/-- `ContextAssemblyService._deduplicate_results`. -/
def deduplicate_results (results : List SearchResult) : List SearchResult :=
  if results.length ≤ 1 then results else dedup_go results []

/-- `ContextAssemblyService._categorize_results`: stable sort by
`final_score or score` descending, then primary = the top `max(1, n // 3)`
positions plus anything scoring at least `0.7`; the rest is supporting. -/
def categorize_results (results : List SearchResult) :
    List SearchResult × List SearchResult :=
  if results = [] then ([], [])
  else
    let scored := results.map (fun r => (r, pyOr r.final_score r.score))
    let sorted := pySortDesc (fun p => p.2) scored
    let primary_count := max 1 (sorted.length / 3)
    let indexed := sorted.enum
    let isPrimary : ℕ × (SearchResult × ℚ) → Bool :=
      fun p => decide (p.1 < primary_count ∨ (0.7 : ℚ) ≤ p.2.2)
    ((indexed.filter isPrimary).map (fun p => p.2.1),
     (indexed.filter (fun p => ! isPrimary p)).map (fun p => p.2.1))

/-- The assembled context.  The db-derived `document_metadata`,
`related_documents` and conflict-summary fields of the Python class are
omitted: they are built from separate resource queries and do not interact
with the chunk windows or token accounting. -/
structure AssembledContext where
  primary_chunks : List ChunkData := []
  supporting_chunks : List ChunkData := []
  total_tokens : ℤ := 0
  source_count : ℕ := 0
deriving Repr, DecidableEq

/-- `ContextAssemblyService.assemble_context`: optional deduplication,
stratification, budgets of `int(max_tokens * 0.6)` and `int(max_tokens * 0.3)`
(exact floors; CPython computes them through float multiplication), window
filling, and the total-token account (chunk `token_count`s plus the 200-token
structure estimate). -/
def assemble_context (results : List SearchResult) (max_tokens : ℕ)
    (deduplicate : Bool) : AssembledContext :=
  if results = [] then {}
  else
    let results := if deduplicate then deduplicate_results results else results
    let pair := categorize_results results
    let primary_budget : ℤ := ((3 * max_tokens) / 5 : ℕ)
    let supporting_budget : ℤ := ((3 * max_tokens) / 10 : ℕ)
    let primary_chunks := fill_context_window pair.1 primary_budget
    let supporting_chunks := fill_context_window pair.2 supporting_budget
    { primary_chunks := primary_chunks,
      supporting_chunks := supporting_chunks,
      total_tokens :=
        ((primary_chunks ++ supporting_chunks).map (fun c => c.token_count)).sum + 200,
      source_count :=
        ((primary_chunks ++ supporting_chunks).map (fun c => c.resource_id)).dedup.length }

/-- The estimated token count (`len(content) // 4`) summed over a chunk list. -/
def window_token_sum (chunks : List ChunkData) : ℤ :=
  (chunks.map (fun c => (estimateTokens c.content : ℤ))).sum

/-- The content a window holds never exceeds `max 0 (budget - used - 200)`:
the 200-token structure reserve is charged inside the window's own budget. -/
theorem fill_go_sum_le (max_tokens : ℤ) :
    ∀ (l : List SearchResult) (used : ℤ),
      window_token_sum (fill_go max_tokens used l) ≤
        max 0 (max_tokens - used - 200)
  | [], used => by simp [fill_go, window_token_sum]
  | r :: rest, used => by
    simp only [fill_go]
    split
    · rename_i hfits
      have ih := fill_go_sum_le max_tokens rest (used + (estimateTokens r.content : ℤ))
      simp only [window_token_sum, List.map_cons, List.sum_cons] at ih ⊢
      have htc : (0 : ℤ) ≤ (estimateTokens r.content : ℤ) := Int.ofNat_nonneg _
      have hchunk : (estimateTokens (chunk_data_of r (estimateTokens r.content : ℤ)).content : ℤ)
          = (estimateTokens r.content : ℤ) := rfl
      rw [hchunk]
      omega
    · split
      · rename_i hfits htrunc
        have hlen : estimateTokens (truncated_chunk_of r
            (max_tokens - used - 200)).content =
            (max_tokens - used - 200).toNat := by
          set a : ℤ := max_tokens - used - 200 with ha
          obtain ⟨n, hn⟩ : ∃ n : ℕ, a = (n : ℤ) :=
            ⟨a.toNat, (Int.toNat_of_nonneg (by omega)).symm⟩
          have htcn : (n : ℤ) < (estimateTokens r.content : ℤ) := by omega
          have hcontent : n * 4 + 4 ≤ r.content.length := by
            have h4 : (estimateTokens r.content) * 4 ≤ r.content.length :=
              Nat.div_mul_le_self _ 4
            have : n + 1 ≤ estimateTokens r.content := by exact_mod_cast htcn
            omega
          have htake : ((r.content.toList.take ((a * 4).toNat)).length) = n * 4 := by
            rw [List.length_take]
            have : (a * 4).toNat = n * 4 := by
              rw [hn]; omega
            rw [this]
            have : r.content.length = r.content.toList.length := rfl
            omega
          show ((pySlice r.content ((a * 4).toNat) ++ "...").length) / 4 = a.toNat
          have happ : (pySlice r.content ((a * 4).toNat) ++ "...").length
              = n * 4 + 3 := by
            rw [String.length_append]
            have h1 : (pySlice r.content ((a * 4).toNat)).length = n * 4 := htake
            rw [h1]
            rfl
          rw [happ, hn]
          omega
        simp only [window_token_sum, List.map_cons, List.map_nil, List.sum_cons,
          List.sum_nil, add_zero, hlen]
        omega
      · simp only [window_token_sum, List.map_nil, List.sum_nil]
        omega

theorem window_token_sum_append (a b : List ChunkData) :
    window_token_sum (a ++ b) = window_token_sum a + window_token_sum b := by
  simp [window_token_sum]

/-! ## Claim C1: the evidence packet's token budget -/

/-- C1 amended: provided `max_tokens ≥ 200`, the estimated token counts of
the chunks in primary followed by supporting sum to at most
`max_tokens - 200`, and each window stays within its own budget
(`int(0.6 * max_tokens)` resp. `int(0.3 * max_tokens)`).  (For
`max_tokens < 200` the stated bound is negative while the sum is `0`, so the
unrestricted claim fails; see the counterexample.) -/
theorem assemble_context_token_budget (results : List SearchResult)
    (max_tokens : ℕ) (d : Bool) (h200 : 200 ≤ max_tokens) :
    window_token_sum ((assemble_context results max_tokens d).primary_chunks ++
        (assemble_context results max_tokens d).supporting_chunks) ≤
      (max_tokens : ℤ) - 200 ∧
    window_token_sum (assemble_context results max_tokens d).primary_chunks ≤
      (((3 * max_tokens) / 5 : ℕ) : ℤ) ∧
    window_token_sum (assemble_context results max_tokens d).supporting_chunks ≤
      (((3 * max_tokens) / 10 : ℕ) : ℤ) := by
  by_cases hne : results = []
  · subst hne
    simp only [assemble_context, if_pos rfl]
    refine ⟨?_, ?_, ?_⟩ <;>
      simp [window_token_sum] <;> omega
  · simp only [assemble_context, if_neg hne]
    have hp := fill_go_sum_le (((3 * max_tokens) / 5 : ℕ) : ℤ)
      (categorize_results (if d then deduplicate_results results else results)).1 0
    have hs := fill_go_sum_le (((3 * max_tokens) / 10 : ℕ) : ℤ)
      (categorize_results (if d then deduplicate_results results else results)).2 0
    have hp5 : ((3 * max_tokens) / 5) * 5 ≤ 3 * max_tokens := Nat.div_mul_le_self _ _
    have hs10 : ((3 * max_tokens) / 10) * 10 ≤ 3 * max_tokens := Nat.div_mul_le_self _ _
    rw [window_token_sum_append]
    unfold fill_context_window
    refine ⟨?_, ?_, ?_⟩ <;> omega

def smallResult : SearchResult :=
  { chunk_id := 7, resource_id := 3, resource_title := "S",
    content := String.mk (List.replicate 40 'a'), score := 0.5,
    source_type := "pdf", section_title := none, page := none }

set_option maxRecDepth 40000 in
/-- C1 counterexample: with `max_tokens = 100` and a non-empty result list,
no chunk fits either window (each window's available budget is already
negative), so the packet's token sum is `0`, and `0 ≤ 100 - 200` is false:
the claim's bound fails for budgets below the 200-token reserve. -/
theorem assemble_context_budget_counterexample :
    ¬ (window_token_sum ((assemble_context [smallResult] 100 true).primary_chunks ++
          (assemble_context [smallResult] 100 true).supporting_chunks) ≤
        (100 : ℤ) - 200) := by
  decide

theorem assemble_context_token_budget_witness :
    (200 ≤ 1000) ∧
      (window_token_sum ((assemble_context [smallResult] 1000 true).primary_chunks ++
          (assemble_context [smallResult] 1000 true).supporting_chunks) ≤
        (1000 : ℤ) - 200 ∧
      window_token_sum (assemble_context [smallResult] 1000 true).primary_chunks ≤
        (((3 * 1000) / 5 : ℕ) : ℤ) ∧
      window_token_sum (assemble_context [smallResult] 1000 true).supporting_chunks ≤
        (((3 * 1000) / 10 : ℕ) : ℤ)) :=
  ⟨by decide, assemble_context_token_budget [smallResult] 1000 true (by decide)⟩

/-! ## Claim C6: truncation of the first chunk that does not fit -/

/-- Each listed result fits the remaining window budget in turn (the state of
`_fill_context_window` after greedily adding every result so far). -/
def fits_all (B : ℤ) : ℤ → List SearchResult → Prop
  | _, [] => True
  | used, r :: rest =>
      (estimateTokens r.content : ℤ) ≤ B - used - 200 ∧
      fits_all B (used + (estimateTokens r.content : ℤ)) rest

/-- The estimated tokens of a prefix of results. -/
def preSum (pre : List SearchResult) : ℤ :=
  (pre.map (fun p => (estimateTokens p.content : ℤ))).sum

theorem fill_go_first_misfit (B : ℤ) :
    ∀ (pre : List SearchResult) (used : ℤ) (r : SearchResult)
      (rest : List SearchResult),
      fits_all B used pre →
      ¬ ((estimateTokens r.content : ℤ) ≤ B - (used + preSum pre) - 200) →
      (100 < B - (used + preSum pre) - 200 →
        fill_go B used (pre ++ r :: rest) =
          pre.map (fun p => chunk_data_of p (estimateTokens p.content : ℤ)) ++
            [truncated_chunk_of r (B - (used + preSum pre) - 200)]) ∧
      (B - (used + preSum pre) - 200 ≤ 100 →
        fill_go B used (pre ++ r :: rest) =
          pre.map (fun p => chunk_data_of p (estimateTokens p.content : ℤ)))
  | [], used, r, rest => by
    intro _ hmis
    simp only [preSum, List.map_nil, List.sum_nil, add_zero] at hmis ⊢
    refine ⟨fun h100 => ?_, fun h100 => ?_⟩
    · simp [fill_go, if_neg hmis, if_pos h100]
    · simp [fill_go, if_neg hmis,
        if_neg (show ¬ (100 < B - used - 200) by omega)]
  | p :: pre, used, r, rest => by
    intro hfits hmis
    obtain ⟨hp, hrest⟩ := hfits
    have hsum : preSum (p :: pre) = (estimateTokens p.content : ℤ) + preSum pre := by
      simp [preSum]
    rw [hsum] at hmis
    have ih := fill_go_first_misfit B pre (used + (estimateTokens p.content : ℤ)) r rest
      hrest (by rw [show used + (estimateTokens p.content : ℤ) + preSum pre =
        used + ((estimateTokens p.content : ℤ) + preSum pre) by ring]; exact hmis)
    rw [show used + (estimateTokens p.content : ℤ) + preSum pre =
      used + ((estimateTokens p.content : ℤ) + preSum pre) by ring] at ih
    rw [hsum]
    constructor
    · intro h100
      simp only [List.cons_append, fill_go, List.append_eq]
      rw [if_pos hp]
      rw [ih.1 h100]
      simp
    · intro h100
      simp only [List.cons_append, fill_go, List.append_eq]
      rw [if_pos hp]
      rw [ih.2 h100]
      simp

/-- C6 amended: when filling a budget in rank order, if the next chunk does
not fit and MORE than 100 tokens remain available, the assembler truncates
that chunk's content to the remaining budget (`available * 4` characters),
appends an ellipsis, marks it `truncated`, and adds nothing further; if 100
tokens or fewer remain, the chunk is excluded entirely and filling stops.
(The claim's "at least 100" boundary is wrong: at exactly 100 remaining
tokens the code excludes the chunk; see the counterexample.) -/
theorem fill_context_window_first_misfit (pre : List SearchResult)
    (r : SearchResult) (rest : List SearchResult) (B : ℤ)
    (hfits : fits_all B 0 pre)
    (hmis : ¬ ((estimateTokens r.content : ℤ) ≤ B - preSum pre - 200)) :
    (100 < B - preSum pre - 200 →
      fill_context_window (pre ++ r :: rest) B =
        pre.map (fun p => chunk_data_of p (estimateTokens p.content : ℤ)) ++
          [truncated_chunk_of r (B - preSum pre - 200)]) ∧
    (B - preSum pre - 200 ≤ 100 →
      fill_context_window (pre ++ r :: rest) B =
        pre.map (fun p => chunk_data_of p (estimateTokens p.content : ℤ))) := by
  have h := fill_go_first_misfit B pre 0 r rest hfits (by simpa using hmis)
  simpa [fill_context_window] using h

def oversizeResult : SearchResult :=
  { chunk_id := 8, resource_id := 4, resource_title := "O",
    content := String.mk (List.replicate 404 'a'), score := 0.5,
    source_type := "pdf", section_title := none, page := none }

def fitResult : SearchResult :=
  { chunk_id := 9, resource_id := 5, resource_title := "F",
    content := String.mk (List.replicate 120 'b'), score := 0.5,
    source_type := "pdf", section_title := none, page := none }

def giantResult : SearchResult :=
  { chunk_id := 10, resource_id := 6, resource_title := "G",
    content := String.mk (List.replicate 1600 'c'), score := 0.5,
    source_type := "pdf", section_title := none, page := none }

set_option maxRecDepth 40000 in
/-- C6 counterexample: a 101-token chunk against a 300-token window leaves
exactly 100 available tokens; the chunk does not fit, at least 100 tokens
remain, yet the code (`available > 100`) excludes it instead of truncating:
the output window is empty. -/
theorem fill_context_window_boundary_counterexample :
    (300 : ℤ) - 0 - 200 = 100 ∧
    ¬ ((estimateTokens oversizeResult.content : ℤ) ≤ 100) ∧
    fill_context_window [oversizeResult] 300 = [] := by
  refine ⟨rfl, by decide, by decide⟩

set_option maxRecDepth 40000 in
theorem fill_context_window_first_misfit_witness :
    fill_context_window ([fitResult] ++ giantResult :: []) 600 =
      [fitResult].map (fun p => chunk_data_of p (estimateTokens p.content : ℤ)) ++
        [truncated_chunk_of giantResult (600 - preSum [fitResult] - 200)] :=
  (fill_context_window_first_misfit [fitResult] giantResult [] 600
    ⟨by decide, trivial⟩ (by decide)).1 (by decide)

/-! ## Hybrid search / RRF fusion (`app/services/search.py`) -/

/-- The per-chunk component scores held in `combined_scores` by
`SearchService._combine_results_rrf`. -/
structure RRFScores where
  semantic : ℚ := 0
  keyword : ℚ := 0
  graph : ℚ := 0
deriving Repr, DecidableEq

/-- The fused final score: `semantic + keyword + graph`. -/
def rrf_final (s : RRFScores) : ℚ := s.semantic + s.keyword + s.graph

/-- The `combined_scores` Python dict, modelled as an association list in
insertion order with unique keys; `rrfInsert` is dict insert-or-update. -/
def rrfInsert (c : ℕ) (upd : RRFScores → RRFScores) (init : RRFScores) :
    List (ℕ × RRFScores) → List (ℕ × RRFScores)
  | [] => [(c, init)]
  | p :: m => if p.1 = c then (c, upd p.2) :: m else p :: rrfInsert c upd init m

def rrfLookup (c : ℕ) : List (ℕ × RRFScores) → Option RRFScores
  | [] => none
  | p :: m => if p.1 = c then some p.2 else rrfLookup c m

/-- One branch loop of `_combine_results_rrf`
(`for rank, chunk in enumerate(results, 1): rrf = 1/(k+rank) * weight; …`),
with `k = 60`.  `set` writes the branch's component (initialising the other
components to `0` for a new chunk). -/
def branch_pass (set : ℚ → Option RRFScores → RRFScores) (w : ℚ) :
    List (ℕ × RRFScores) → ℕ → List ℕ → List (ℕ × RRFScores)
  | m, _, [] => m
  | m, rank, c :: rest =>
      branch_pass set w
        (rrfInsert c (fun s => set ((1 : ℚ) / (60 + (rank : ℚ)) * w) (some s))
          (set ((1 : ℚ) / (60 + (rank : ℚ)) * w) none) m)
        (rank + 1) rest

def setSemantic (v : ℚ) : Option RRFScores → RRFScores
  | some s => { s with semantic := v }
  | none => { semantic := v }

def setKeyword (v : ℚ) : Option RRFScores → RRFScores
  | some s => { s with keyword := v }
  | none => { keyword := v }

def setGraph (v : ℚ) : Option RRFScores → RRFScores
  | some s => { s with graph := v }
  | none => { graph := v }

/-- The three weighted branch passes of `_combine_results_rrf`: semantic 0.5,
keyword 0.3, graph 0.2, each ranked from 1. -/
def combined_scores (semantic keyword graph : List ℕ) : List (ℕ × RRFScores) :=
  branch_pass setGraph 0.2
    (branch_pass setKeyword 0.3
      (branch_pass setSemantic 0.5 [] 1 semantic) 1 keyword) 1 graph

/-- `SearchService._combine_results_rrf`: fuse the three ranked branch lists
(chunk ids), sort by fused score descending, return the top `top_k` entries
(each carrying its component scores, from which the emitted `SearchResult`'s
`score` and `search_components` are filled). -/
def combine_results_rrf (semantic keyword graph : List ℕ) (top_k : ℕ) :
    List (ℕ × RRFScores) :=
  (pySortDesc (fun p => rrf_final p.2) (combined_scores semantic keyword graph)).take top_k

/-- Python-style order-preserving deduplication (keep first occurrence), as
`hybrid_search` applies to each branch's accumulated results. -/
def pyDedupGo : List ℕ → List ℕ → List ℕ
  | [], _ => []
  | x :: rest, seen => if x ∈ seen then pyDedupGo rest seen
                       else x :: pyDedupGo rest (x :: seen)

def pyDedup (l : List ℕ) : List ℕ := pyDedupGo l []

/-- `SearchService.hybrid_search`, downstream of the per-variant fan-out: the
accumulated semantic/keyword/graph chunk lists are deduplicated by chunk id
and fused with RRF.  The branch contents themselves come from db and
embedding oracles and are taken as inputs. -/
def hybrid_search_fused (all_semantic all_keyword all_graph : List ℕ)
    (top_k : ℕ) : List (ℕ × RRFScores) :=
  combine_results_rrf (pyDedup all_semantic) (pyDedup all_keyword)
    (pyDedup all_graph) top_k

theorem rrfLookup_rrfInsert_self (c : ℕ) (upd : RRFScores → RRFScores)
    (init : RRFScores) :
    ∀ m, rrfLookup c (rrfInsert c upd init m) =
      some (match rrfLookup c m with | some v => upd v | none => init)
  | [] => by simp [rrfInsert, rrfLookup]
  | p :: m => by
    simp only [rrfInsert, rrfLookup]
    by_cases h : p.1 = c
    · rw [if_pos h]
      simp [rrfLookup, if_pos h]
    · rw [if_neg h]
      simp only [rrfLookup, if_neg h]
      exact rrfLookup_rrfInsert_self c upd init m

theorem rrfLookup_rrfInsert_other (c c' : ℕ) (h : c' ≠ c)
    (upd : RRFScores → RRFScores) (init : RRFScores) :
    ∀ m, rrfLookup c' (rrfInsert c upd init m) = rrfLookup c' m
  | [] => by simp only [rrfInsert, rrfLookup]; rw [if_neg (by omega)]
  | p :: m => by
    simp only [rrfInsert, rrfLookup]
    by_cases hp : p.1 = c
    · rw [if_pos hp]
      simp only [rrfLookup]
      rw [if_neg (by omega), if_neg (by omega)]
    · rw [if_neg hp]
      simp only [rrfLookup]
      by_cases hp' : p.1 = c'
      · rw [if_pos hp', if_pos hp']
      · rw [if_neg hp', if_neg hp']
        exact rrfLookup_rrfInsert_other c c' h upd init m

/-- Lookup after a branch pass: a chunk in the (duplicate-free) branch list
gets its component set to `1/(60 + rank) * w` at its 1-based rank; other
chunks are untouched. -/
theorem rrfLookup_branch_pass (set : ℚ → Option RRFScores → RRFScores) (w : ℚ) :
    ∀ (l : List ℕ) (m : List (ℕ × RRFScores)) (rank : ℕ) (c : ℕ),
      l.Nodup →
      rrfLookup c (branch_pass set w m rank l) =
        if c ∈ l then
          some (set ((1 : ℚ) / (60 + ((rank + l.indexOf c : ℕ) : ℚ)) * w)
            (rrfLookup c m))
        else rrfLookup c m
  | [], m, rank, c, _ => by simp [branch_pass]
  | a :: rest, m, rank, c, hnd => by
    simp only [branch_pass]
    rw [rrfLookup_branch_pass set w rest _ (rank + 1) c (List.nodup_cons.mp hnd).2]
    by_cases hca : c = a
    · subst hca
      have hnotin : c ∉ rest := (List.nodup_cons.mp hnd).1
      rw [if_neg hnotin, if_pos (by simp)]
      rw [rrfLookup_rrfInsert_self]
      rw [List.indexOf_cons_self]
      cases hm : rrfLookup c m <;> simp
    · by_cases hcr : c ∈ rest
      · rw [if_pos hcr, if_pos (by simp [hcr])]
        rw [rrfLookup_rrfInsert_other a c (fun h => hca h) _ _ m]
        have hidx : (a :: rest).indexOf c = rest.indexOf c + 1 := by
          rw [List.indexOf_cons_ne _ (fun h => hca h.symm)]
        rw [hidx]
        have harith : rank + 1 + rest.indexOf c = rank + (rest.indexOf c + 1) := by omega
        rw [harith]
      · rw [if_neg hcr, if_neg (by simp [hcr, hca])]
        exact rrfLookup_rrfInsert_other a c (fun h => hca h) _ _ m

theorem keys_rrfInsert (c : ℕ) (upd : RRFScores → RRFScores) (init : RRFScores) :
    ∀ m : List (ℕ × RRFScores),
      (rrfInsert c upd init m).map Prod.fst =
        if c ∈ m.map Prod.fst then m.map Prod.fst else m.map Prod.fst ++ [c]
  | [] => by simp [rrfInsert]
  | p :: m => by
    simp only [rrfInsert, List.map_cons]
    by_cases hp : p.1 = c
    · rw [if_pos hp, if_pos (by simp [hp])]
      simp [hp]
    · rw [if_neg hp]
      simp only [List.map_cons, keys_rrfInsert c upd init m]
      by_cases hcm : c ∈ m.map Prod.fst
      · rw [if_pos hcm, if_pos (by simp [hcm])]
      · rw [if_neg hcm, if_neg (by simp [hcm]; omega)]
        simp

theorem keys_nodup_rrfInsert (c : ℕ) (upd : RRFScores → RRFScores)
    (init : RRFScores) (m : List (ℕ × RRFScores))
    (h : (m.map Prod.fst).Nodup) :
    ((rrfInsert c upd init m).map Prod.fst).Nodup := by
  rw [keys_rrfInsert]
  split
  · exact h
  · rename_i hnotin
    simp only [List.nodup_append, List.nodup_cons, List.nodup_nil]
    exact ⟨h, by simp, by simpa [List.disjoint_singleton] using hnotin⟩

theorem keys_nodup_branch_pass (set : ℚ → Option RRFScores → RRFScores) (w : ℚ) :
    ∀ (l : List ℕ) (m : List (ℕ × RRFScores)) (rank : ℕ),
      (m.map Prod.fst).Nodup →
      ((branch_pass set w m rank l).map Prod.fst).Nodup
  | [], m, rank, h => by simpa [branch_pass] using h
  | a :: rest, m, rank, h => by
    simp only [branch_pass]
    exact keys_nodup_branch_pass set w rest _ (rank + 1)
      (keys_nodup_rrfInsert a _ _ m h)

theorem combined_scores_keys_nodup (semantic keyword graph : List ℕ) :
    ((combined_scores semantic keyword graph).map Prod.fst).Nodup := by
  unfold combined_scores
  exact keys_nodup_branch_pass _ _ graph _ 1
    (keys_nodup_branch_pass _ _ keyword _ 1
      (keys_nodup_branch_pass _ _ semantic _ 1 (by simp)))

/-! ## Claim C3: hybrid search returns distinct, score-ordered, length-bounded results -/

/-- C3: for every accumulated branch contents and `top_k`, the hybrid
retriever's fused result list has pairwise-distinct chunk ids, is ordered by
fused score descending, and has length at most `top_k`. -/
theorem hybrid_search_results_sound (all_semantic all_keyword all_graph : List ℕ)
    (top_k : ℕ) :
    ((hybrid_search_fused all_semantic all_keyword all_graph top_k).map
      Prod.fst).Nodup ∧
    (hybrid_search_fused all_semantic all_keyword all_graph top_k).Pairwise
      (fun a b => rrf_final b.2 ≤ rrf_final a.2) ∧
    (hybrid_search_fused all_semantic all_keyword all_graph top_k).length ≤ top_k := by
  unfold hybrid_search_fused combine_results_rrf
  refine ⟨?_, ?_, ?_⟩
  · have hnd := combined_scores_keys_nodup (pyDedup all_semantic)
      (pyDedup all_keyword) (pyDedup all_graph)
    have hperm := (pySortDesc_perm (fun p => rrf_final p.2)
      (combined_scores (pyDedup all_semantic) (pyDedup all_keyword)
        (pyDedup all_graph))).map Prod.fst
    have hsorted_nd := (hperm.nodup_iff).mpr hnd
    rw [List.map_take]
    exact List.Nodup.sublist (List.take_sublist top_k _) hsorted_nd
  · have hs := sorted_pySortDesc (fun p : ℕ × RRFScores => rrf_final p.2)
      (combined_scores (pyDedup all_semantic) (pyDedup all_keyword)
        (pyDedup all_graph))
    exact List.Pairwise.sublist
      (List.take_sublist top_k
        (pySortDesc (fun p : ℕ × RRFScores => rrf_final p.2)
          (combined_scores (pyDedup all_semantic) (pyDedup all_keyword)
            (pyDedup all_graph)))) hs
  · rw [List.length_take]
    exact Nat.min_le_left _ _

/-! ## Claim C7: a chunk ranked first in all three branches beats any
single-branch chunk -/

theorem rrf_term_lt (n : ℕ) (hn : 1 ≤ n) (w : ℚ) (hw0 : 0 ≤ w) (hw1 : w < 1) :
    (1 : ℚ) / (60 + (n : ℚ)) * w < 1 / 61 := by
  have hcast : (1 : ℚ) ≤ (n : ℚ) := by exact_mod_cast hn
  have h61 : (61 : ℚ) ≤ 60 + (n : ℚ) := by linarith
  have hle : (1 : ℚ) / (60 + (n : ℚ)) ≤ 1 / 61 :=
    one_div_le_one_div_of_le (by norm_num) h61
  calc (1 : ℚ) / (60 + (n : ℚ)) * w ≤ 1 / 61 * w :=
        mul_le_mul_of_nonneg_right hle hw0
    _ < 1 / 61 * 1 := by
        apply mul_lt_mul_of_pos_left hw1
        norm_num
    _ = 1 / 61 := mul_one _

/-- C7: under the RRF fusion with k=60 and weights 0.5/0.3/0.2, a chunk `c`
ranked first in all three (duplicate-free) branch lists has fused score
`1/61`, strictly above the fused score of any chunk `d` that appears in
exactly one branch, at any rank there. -/
theorem rrf_triple_first_dominates (semantic keyword graph : List ℕ) (c d : ℕ)
    (hsem : semantic.Nodup) (hkw : keyword.Nodup) (hgr : graph.Nodup)
    (hcs : semantic.head? = some c) (hck : keyword.head? = some c)
    (hcg : graph.head? = some c) (_hdc : d ≠ c)
    (hone : (d ∈ semantic ∧ d ∉ keyword ∧ d ∉ graph) ∨
            (d ∉ semantic ∧ d ∈ keyword ∧ d ∉ graph) ∨
            (d ∉ semantic ∧ d ∉ keyword ∧ d ∈ graph)) :
    ∃ sc sd, rrfLookup c (combined_scores semantic keyword graph) = some sc ∧
      rrfLookup d (combined_scores semantic keyword graph) = some sd ∧
      rrf_final sd < rrf_final sc := by
  obtain ⟨sem', rfl⟩ : ∃ t, semantic = c :: t := by
    cases semantic with
    | nil => simp at hcs
    | cons a t => simp at hcs; exact ⟨t, by rw [hcs]⟩
  obtain ⟨kw', rfl⟩ : ∃ t, keyword = c :: t := by
    cases keyword with
    | nil => simp at hck
    | cons a t => simp at hck; exact ⟨t, by rw [hck]⟩
  obtain ⟨gr', rfl⟩ : ∃ t, graph = c :: t := by
    cases graph with
    | nil => simp at hcg
    | cons a t => simp at hcg; exact ⟨t, by rw [hcg]⟩
  have hlc : rrfLookup c (combined_scores (c :: sem') (c :: kw') (c :: gr')) =
      some { semantic := 1 / 61 * 0.5, keyword := 1 / 61 * 0.3,
             graph := 1 / 61 * 0.2 } := by
    unfold combined_scores
    rw [rrfLookup_branch_pass _ _ _ _ _ _ hgr,
      if_pos (by simp)]
    rw [rrfLookup_branch_pass _ _ _ _ _ _ hkw,
      if_pos (by simp)]
    rw [rrfLookup_branch_pass _ _ _ _ _ _ hsem,
      if_pos (by simp)]
    rw [List.indexOf_cons_self, List.indexOf_cons_self, List.indexOf_cons_self]
    norm_num [rrfLookup, setSemantic, setKeyword, setGraph]
  rcases hone with ⟨hds, hdk, hdg⟩ | ⟨hds, hdk, hdg⟩ | ⟨hds, hdk, hdg⟩
  · have hld : rrfLookup d (combined_scores (c :: sem') (c :: kw') (c :: gr')) =
        some { semantic := (1 : ℚ) / (60 + (((1 + (c :: sem').indexOf d : ℕ)) : ℚ)) * 0.5,
               keyword := 0, graph := 0 } := by
      unfold combined_scores
      rw [rrfLookup_branch_pass _ _ _ _ _ _ hgr, if_neg hdg]
      rw [rrfLookup_branch_pass _ _ _ _ _ _ hkw, if_neg hdk]
      rw [rrfLookup_branch_pass _ _ _ _ _ _ hsem, if_pos hds]
      simp [rrfLookup, setSemantic]
    refine ⟨_, _, hlc, hld, ?_⟩
    have := rrf_term_lt (1 + (c :: sem').indexOf d) (by omega) 0.5
      (by norm_num) (by norm_num)
    simp only [rrf_final]
    norm_num at this ⊢
    linarith
  · have hld : rrfLookup d (combined_scores (c :: sem') (c :: kw') (c :: gr')) =
        some { semantic := 0,
               keyword := (1 : ℚ) / (60 + (((1 + (c :: kw').indexOf d : ℕ)) : ℚ)) * 0.3,
               graph := 0 } := by
      unfold combined_scores
      rw [rrfLookup_branch_pass _ _ _ _ _ _ hgr, if_neg hdg]
      rw [rrfLookup_branch_pass _ _ _ _ _ _ hkw, if_pos hdk]
      rw [rrfLookup_branch_pass _ _ _ _ _ _ hsem, if_neg hds]
      simp [rrfLookup, setKeyword]
    refine ⟨_, _, hlc, hld, ?_⟩
    have := rrf_term_lt (1 + (c :: kw').indexOf d) (by omega) 0.3
      (by norm_num) (by norm_num)
    simp only [rrf_final]
    norm_num at this ⊢
    linarith
  · have hld : rrfLookup d (combined_scores (c :: sem') (c :: kw') (c :: gr')) =
        some { semantic := 0, keyword := 0,
               graph := (1 : ℚ) / (60 + (((1 + (c :: gr').indexOf d : ℕ)) : ℚ)) * 0.2 } := by
      unfold combined_scores
      rw [rrfLookup_branch_pass _ _ _ _ _ _ hgr, if_pos hdg]
      rw [rrfLookup_branch_pass _ _ _ _ _ _ hkw, if_neg hdk]
      rw [rrfLookup_branch_pass _ _ _ _ _ _ hsem, if_neg hds]
      simp [rrfLookup, setGraph]
    refine ⟨_, _, hlc, hld, ?_⟩
    have := rrf_term_lt (1 + (c :: gr').indexOf d) (by omega) 0.2
      (by norm_num) (by norm_num)
    simp only [rrf_final]
    norm_num at this ⊢
    linarith

theorem rrf_triple_first_dominates_witness :
    ∃ sc sd, rrfLookup 1 (combined_scores [1, 2] [1] [1]) = some sc ∧
      rrfLookup 2 (combined_scores [1, 2] [1] [1]) = some sd ∧
      rrf_final sd < rrf_final sc :=
  rrf_triple_first_dominates [1, 2] [1] [1] 1 2 (by decide) (by decide) (by decide)
    (by decide) (by decide) (by decide) (by decide)
    (Or.inl ⟨by decide, by decide, by decide⟩)

/-! ## Query expansion service (`app/services/query_expansion.py`) -/

/-- Python `str.rstrip(chars)` for a single character. -/
def pyRStrip (s : String) (ch : Char) : String :=
  String.mk ((s.toList.reverse.dropWhile (fun c => c = ch)).reverse)

/-- Python `str.strip(chars)` for a single character. -/
def pyStripCh (s : String) (ch : Char) : String :=
  String.mk (((s.toList.dropWhile (fun c => c = ch)).reverse.dropWhile
    (fun c => c = ch)).reverse)

def pyStartsWith (s t : String) : Bool := t.toList.isPrefixOf s.toList

def pyContainsChar (s : String) (c : Char) : Bool := s.toList.any (fun x => x = c)

/-- Python `s[n:]` (character count). -/
def pyDrop (s : String) (n : ℕ) : String := String.mk (s.toList.drop n)

/-- `QueryExpansionService.expand_query` with the LLM call as an
`Except String String` oracle.  Note every failure path (short query, raised
exception, no parseable variants) returns just `[user_query]`. -/
def expand_query (llm : Except String String) (user_query : String)
    (max_variants : ℕ) : List String :=
  if user_query = "" ∨ (pyTrim user_query).length < 3 then [user_query]
  else if (pySplit user_query).length < 3 then [user_query]
  else
    match llm with
    | .error _ => [user_query]
    | .ok response =>
      let variants :=
        (((pySplitCh (pyTrim response) '\n').filter
          (fun v => pyTrim v ≠ "" ∧ pyContainsChar v '?')).map
            (fun v => pyTrim v)).take (max_variants - 1)
      if variants = [] then [user_query]
      else ([user_query] ++ variants).take max_variants

/-- The case-insensitive deduplication loop of `expand_query_simple`
(signature: `v.lower().strip('?').strip()`, keeping first occurrences). -/
def variant_dedup_go : List String → List String → List String
  | [], _ => []
  | v :: rest, seen =>
    let key := pyTrim (pyStripCh (pyLower v) '?')
    if key ∈ seen then variant_dedup_go rest seen
    else v :: variant_dedup_go rest (key :: seen)

/-- `QueryExpansionService.expand_query_simple`: the rule-based variants
(strip a leading "what is "/"how do "/"how can "/"why " and add a
directive-phrased "Explain …" variant), deduplicated case-insensitively,
original first, capped at `max_variants`. -/
def expand_query_simple (user_query : String) (max_variants : ℕ) : List String :=
  let query_lower := pyLower user_query
  let variants := [user_query]
  let variants := if pyStartsWith query_lower "what is " then
      (let v := pyTrim (pyDrop query_lower 8)
       if v ≠ "" then variants ++ [v] else variants)
    else variants
  let variants := if pyStartsWith query_lower "how do " ∨
      pyStartsWith query_lower "how can " then
      (let parts := pySplitCh query_lower ' '
       if 2 < parts.length then
         variants ++ [pyTrim (String.intercalate " " (parts.drop 2))]
       else variants)
    else variants
  let variants := if pyStartsWith query_lower "why " then
      (let v := pyTrim (pyDrop query_lower 4)
       if v ≠ "" then variants ++ [v] else variants)
    else variants
  let variants := if ¬ pyStartsWith query_lower "explain" then
      variants ++ ["Explain " ++ pyRStrip (pyLower user_query) '?']
    else variants
  (variant_dedup_go variants []).take max_variants

/-- `QueryExpansionService.combine_variants`.  `expand_query` catches its own
exceptions and never raises, so the `except` fallback to
`expand_query_simple` in the `use_llm` branch is unreachable; it is reached
only with `use_llm = False`. -/
def combine_variants (llm : Except String String) (original_query : String)
    (use_llm : Bool := true) (max_variants : ℕ := 4) : List String :=
  if use_llm then expand_query llm original_query max_variants
  else expand_query_simple original_query max_variants

/-! ## Claim C8: expansion for short queries and LLM failure -/

set_option maxRecDepth 40000 in
/-- C8 counterexample: for the two-word query "quantum computing" (and for an
LLM failure on a longer query) `combine_variants` returns only the original
query; the rule-based variants — here including "Explain quantum computing" —
are not produced, because `expand_query` swallows both cases before the
rule-based fallback can run. -/
theorem combine_variants_counterexample :
    combine_variants (Except.ok "ignored") "quantum computing" = ["quantum computing"] ∧
    combine_variants (Except.error "connection refused") "what is the capital" =
      ["what is the capital"] ∧
    expand_query_simple "quantum computing" 3 =
      ["quantum computing", "Explain quantum computing"] ∧
    combine_variants (Except.ok "ignored") "quantum computing" ≠
      expand_query_simple "quantum computing" 3 := by
  refine ⟨by decide, by decide, by decide, by decide⟩

/-- C8 amended: for every query of fewer than 3 words, and for every query on
which the LLM call fails, `combine_variants` (with LLM expansion enabled)
returns exactly the one-element list holding the original query — so the
original is trivially first and the list trivially deduplicated — and no
rule-based variants are produced. -/
theorem combine_variants_fallback (llm : Except String String) (q : String)
    (h : (pySplit q).length < 3 ∨ ∃ e, llm = Except.error e) :
    combine_variants llm q = [q] := by
  have hinner : expand_query llm q 4 = [q] := by
    unfold expand_query
    rcases h with hshort | ⟨e, rfl⟩
    · by_cases h0 : q = "" ∨ (pyTrim q).length < 3
      · rw [if_pos h0]
      · rw [if_neg h0, if_pos hshort]
    · by_cases h0 : q = "" ∨ (pyTrim q).length < 3
      · rw [if_pos h0]
      · rw [if_neg h0]
        by_cases h1 : (pySplit q).length < 3
        · rw [if_pos h1]
        · rw [if_neg h1]
  unfold combine_variants
  rw [if_pos rfl]
  exact hinner

set_option maxRecDepth 40000 in
theorem combine_variants_fallback_witness :
    ((pySplit "quantum computing").length < 3 ∨
      ∃ e, (Except.ok "ignored" : Except String String) = Except.error e) ∧
    combine_variants (Except.ok "ignored") "quantum computing" = ["quantum computing"] :=
  ⟨Or.inl (by decide),
   combine_variants_fallback (Except.ok "ignored") "quantum computing"
     (Or.inl (by decide))⟩

/-! ## Citation verification: tokenisation and overlap
(`app/services/citation_verification.py`) -/

/-- Python's `\w` (word character), ASCII view: alphanumeric or underscore. -/
def isWordChar (c : Char) : Bool := c.isAlphanum ∨ c = '_'

/-- The closed stopword set of `CitationVerificationService._tokenize`. -/
def stopwords : List String :=
  ["the", "a", "an", "is", "are", "was", "were", "be", "been",
   "being", "have", "has", "had", "do", "does", "did", "will",
   "would", "could", "should", "may", "might", "must", "shall",
   "to", "of", "in", "for", "on", "with", "at", "by", "from",
   "as", "into", "through", "during", "before", "after", "above",
   "below", "between", "under", "again", "further", "then", "once",
   "and", "but", "or", "nor", "so", "yet", "both", "either",
   "neither", "not", "only", "own", "same", "than", "too", "very",
   "just", "also", "now", "here", "there", "when", "where", "why",
   "how", "all", "each", "every", "both", "few", "more", "most",
   "other", "some", "such", "no", "any", "this", "that", "these",
   "those", "it", "its"]

/-- `CitationVerificationService._tokenize`: replace every character that is
neither a word character nor whitespace by a space
(`re.sub(r'[^\w\s]', ' ', text)`), split on whitespace, and keep words longer
than 2 characters that are not stopwords. -/
def tokenize (text : String) : List String :=
  let cleaned := String.mk (text.toList.map (fun c =>
    if isWordChar c ∨ c.isWhitespace then c else ' '))
  (pySplit cleaned).filter (fun w => 2 < w.length ∧ w ∉ stopwords)

/-- `CitationVerificationService._extract_key_phrases`: bigrams then trigrams
of the tokenised text. -/
def key_phrases (text : String) : List String :=
  let words := tokenize text
  (words.zip words.tail).map (fun p => p.1 ++ " " ++ p.2) ++
    ((words.zip words.tail).zip words.tail.tail).map
      (fun p => p.1.1 ++ " " ++ p.1.2 ++ " " ++ p.2)

def commonPrefixLen : List Char → List Char → ℕ
  | a :: as, b :: bs => if a = b then 1 + commonPrefixLen as bs else 0
  | _, _ => 0

/-- The size of `SequenceMatcher.find_longest_match` with no junk: the length
of the longest common substring. -/
def longestMatchSize (a b : List Char) : ℕ :=
  (a.tails.map (fun sa =>
    (b.tails.map (fun sb => commonPrefixLen sa sb)).foldr max 0)).foldr max 0

/-- The word-overlap (paraphrase) path of `_calculate_overlap`: claim-token
coverage weighted 0.6 plus key-phrase match fraction weighted 0.4, with both
divisions guarded (`0.0` for an empty claim-token set, phrase score `0` for no
key phrases). -/
def word_overlap_score (claim_normalized source_normalized : String) : ℚ :=
  let claim_words := (tokenize claim_normalized).dedup
  let source_words := (tokenize source_normalized).dedup
  if claim_words = [] then 0.0
  else
    let overlap := claim_words.filter (fun w => w ∈ source_words)
    let claim_coverage := (overlap.length : ℚ) / claim_words.length
    let kp := key_phrases claim_normalized
    let phrase_matches := (kp.filter (fun p => pyIn p source_normalized)).length
    let phrase_score : ℚ := if kp = [] then 0 else (phrase_matches : ℚ) / kp.length
    claim_coverage * 0.6 + phrase_score * 0.4

/-- `CitationVerificationService._calculate_overlap`.  The quote branch
returns `1.0` on a substring hit and `0.9` when the longest matching block
covers more than 80% of the claim; otherwise (and always for paraphrase
citations) it falls through to the word-overlap path. -/
def calculate_overlap (claim source_content : String) (is_quote : Bool) : ℚ :=
  let claim_normalized := pyTrim (pyLower claim)
  let source_normalized := pyLower source_content
  if is_quote then
    if pyIn claim_normalized source_normalized then 1.0
    else if (claim_normalized.length : ℚ) * 0.8 <
        (longestMatchSize claim_normalized.toList source_normalized.toList : ℚ)
      then 0.9
    else word_overlap_score claim_normalized source_normalized
  else word_overlap_score claim_normalized source_normalized

/-! ## Claim C10: the overlap computation is total with range [0, 1] -/

theorem ratio_bounds {a b : ℕ} (hab : a ≤ b) (hb : 0 < b) :
    (0 : ℚ) ≤ (a : ℚ) / (b : ℚ) ∧ (a : ℚ) / (b : ℚ) ≤ 1 := by
  constructor
  · apply div_nonneg <;> positivity
  · rw [div_le_one (by exact_mod_cast hb)]
    exact_mod_cast hab

theorem word_overlap_score_bounds (c s : String) :
    0 ≤ word_overlap_score c s ∧ word_overlap_score c s ≤ 1 := by
  unfold word_overlap_score
  set cw := (tokenize c).dedup with hcw
  by_cases hempty : cw = []
  · rw [if_pos hempty]; norm_num
  · rw [if_neg hempty]
    have hcwpos : 0 < cw.length := List.length_pos.mpr hempty
    have hcov := ratio_bounds
      (List.length_filter_le (fun w => w ∈ (tokenize s).dedup) cw) hcwpos
    set kp := key_phrases c with hkp
    have hps : 0 ≤ (if kp = [] then (0 : ℚ)
        else ((kp.filter (fun p => pyIn p s)).length : ℚ) / kp.length) ∧
        (if kp = [] then (0 : ℚ)
        else ((kp.filter (fun p => pyIn p s)).length : ℚ) / kp.length) ≤ 1 := by
      by_cases hkpe : kp = []
      · rw [if_pos hkpe]; norm_num
      · rw [if_neg hkpe]
        exact ratio_bounds
          (List.length_filter_le (fun p => pyIn p s) kp)
          (List.length_pos.mpr hkpe)
    constructor
    · have h1 := mul_nonneg hcov.1 (show (0 : ℚ) ≤ 0.6 by norm_num)
      have h2 := mul_nonneg hps.1 (show (0 : ℚ) ≤ 0.4 by norm_num)
      linarith
    · have h1 := mul_le_mul_of_nonneg_right hcov.2 (show (0 : ℚ) ≤ 0.6 by norm_num)
      have h2 := mul_le_mul_of_nonneg_right hps.2 (show (0 : ℚ) ≤ 0.4 by norm_num)
      linarith

theorem word_overlap_score_of_no_tokens (c s : String) (h : tokenize c = []) :
    word_overlap_score c s = 0 := by
  unfold word_overlap_score
  rw [if_pos (by rw [h]; rfl)]
  norm_num

/-- C10: for every pair of claim and source strings (quote or paraphrase
path), the overlap score is defined and lies in `[0, 1]`: both divisions are
guarded, and the paraphrase path returns `0.0` whenever the claim tokenises
to no words. -/
theorem calculate_overlap_total (claim source : String) (is_quote : Bool) :
    (0 ≤ calculate_overlap claim source is_quote ∧
      calculate_overlap claim source is_quote ≤ 1) ∧
    (tokenize (pyTrim (pyLower claim)) = [] →
      calculate_overlap claim source false = 0) := by
  have hw := word_overlap_score_bounds (pyTrim (pyLower claim)) (pyLower source)
  constructor
  · unfold calculate_overlap
    rcases is_quote with _ | _
    · simpa using hw
    · simp only [if_true]
      by_cases h1 : pyIn (pyTrim (pyLower claim)) (pyLower source) = true
      · rw [if_pos h1]; norm_num
      · rw [if_neg h1]
        by_cases h2 : ((pyTrim (pyLower claim)).length : ℚ) * 0.8 <
            (longestMatchSize (pyTrim (pyLower claim)).toList (pyLower source).toList : ℚ)
        · rw [if_pos h2]; norm_num
        · rw [if_neg h2]; exact hw
  · intro htok
    unfold calculate_overlap
    simp only [Bool.false_eq_true, if_false]
    exact word_overlap_score_of_no_tokens _ _ htok

set_option maxRecDepth 40000 in
theorem calculate_overlap_total_witness :
    tokenize (pyTrim (pyLower "is a 5%?")) = [] ∧
      calculate_overlap "is a 5%?" "some source text" false = 0 :=
  ⟨by decide,
   (calculate_overlap_total "is a 5%?" "some source text" false).2 (by decide)⟩

/-! ## Citation extraction (`_extract_citations` and friends)

The two extraction regexes are modelled as deterministic matchers over
character lists (both patterns are backtracking-free on their structure, see
the matcher comments), driven by a `finditer`-style scan that emits
non-overlapping matches left to right. -/

/-- The sentence-terminator class `[.!?]`. -/
def isTermCh (c : Char) : Bool := c = '.' ∨ c = '!' ∨ c = '?'

/-- Case-insensitive literal prefix strip (the patterns carry
`re.IGNORECASE`). -/
def stripPrefixCI : List Char → List Char → Option (List Char)
  | [], s => some s
  | _ :: _, [] => none
  | p :: ps, c :: cs =>
    if Char.toLower c = Char.toLower p then stripPrefixCI ps cs else none

def charDigitVal (c : Char) : ℕ := c.toNat - 48

/-- `int(...)` on a digit group. -/
def parseDigits (l : List Char) : ℕ :=
  l.foldl (fun acc c => 10 * acc + charDigitVal c) 0

def digitChar10 : ℕ → Char
  | 0 => '0' | 1 => '1' | 2 => '2' | 3 => '3' | 4 => '4'
  | 5 => '5' | 6 => '6' | 7 => '7' | 8 => '8' | _ => '9'

/-- Decimal rendering of a natural number (used by the synthetic responses of
the round-trip law). -/
def renderNat (n : ℕ) : List Char := ((Nat.digits 10 n).map digitChar10).reverse

theorem digitChar10_isDigit (d : ℕ) (hd : d < 10) :
    (digitChar10 d).isDigit = true := by
  interval_cases d <;> decide

theorem digitChar10_toNat (d : ℕ) (hd : d < 10) :
    (digitChar10 d).toNat = 48 + d := by
  interval_cases d <;> decide

theorem renderNat_digits (n : ℕ) : ∀ c ∈ renderNat n, c.isDigit = true := by
  intro c hc
  simp only [renderNat, List.mem_reverse, List.mem_map] at hc
  obtain ⟨d, hd, rfl⟩ := hc
  exact digitChar10_isDigit d (Nat.digits_lt_base (by norm_num) hd)

theorem renderNat_ne_nil (n : ℕ) (h : 1 ≤ n) : renderNat n ≠ [] := by
  simp only [renderNat, ne_eq, List.reverse_eq_nil_iff, List.map_eq_nil_iff]
  exact Nat.digits_ne_nil_iff_ne_zero.mpr (by omega)

theorem parseDigits_concat (l : List Char) (x : Char) :
    parseDigits (l ++ [x]) = 10 * parseDigits l + charDigitVal x := by
  simp [parseDigits, List.foldl_append]

theorem parseDigits_renderNat (n : ℕ) : parseDigits (renderNat n) = n := by
  suffices h : ∀ ds : List ℕ, (∀ d ∈ ds, d < 10) →
      parseDigits ((ds.map digitChar10).reverse) = Nat.ofDigits 10 ds by
    have := h (Nat.digits 10 n) (fun d hd => Nat.digits_lt_base (by norm_num) hd)
    simpa [renderNat, Nat.ofDigits_digits] using this
  intro ds
  induction ds with
  | nil => intro _; simp [parseDigits, Nat.ofDigits]
  | cons d ds ih =>
    intro h
    simp only [List.map_cons, List.reverse_cons]
    rw [parseDigits_concat, ih (fun x hx => h x (List.mem_cons_of_mem d hx))]
    have hval : charDigitVal (digitChar10 d) = d := by
      unfold charDigitVal
      rw [digitChar10_toNat d (h d (List.mem_cons_self d ds))]
      omega
    rw [hval, Nat.ofDigits_cons]
    ring

theorem takeWhile_all_stop {p : Char → Bool} :
    ∀ (b : List Char) (x : Char) (l : List Char),
      (∀ c ∈ b, p c = true) → p x = false →
      ((b ++ x :: l).takeWhile p) = b
  | [], x, l, _, hx => by simp [List.takeWhile_cons, hx]
  | c :: b, x, l, hb, hx => by
    simp only [List.cons_append, List.takeWhile_cons, hb c (by simp)]
    simp only [if_true]
    rw [takeWhile_all_stop b x l (fun c hc => hb c (by simp [hc])) hx]

theorem dropWhile_all_stop {p : Char → Bool} :
    ∀ (b : List Char) (x : Char) (l : List Char),
      (∀ c ∈ b, p c = true) → p x = false →
      ((b ++ x :: l).dropWhile p) = x :: l
  | [], x, l, _, hx => by simp [List.dropWhile_cons, hx]
  | c :: b, x, l, hb, hx => by
    simp only [List.cons_append, List.dropWhile_cons, hb c (by simp)]
    simp only [if_true]
    exact dropWhile_all_stop b x l (fun c hc => hb c (by simp [hc])) hx

theorem isDigit_not_ws {c : Char} (h : c.isDigit = true) :
    c.isWhitespace = false := by
  cases hw : c.isWhitespace
  · rfl
  · exfalso
    simp only [Char.isWhitespace, Bool.or_eq_true, decide_eq_true_eq] at hw
    rcases hw with ((rfl | rfl) | rfl) | rfl <;> exact absurd h (by decide)

/-- A raw match of `CLAIM_PATTERN`
(`([^.!?]+[.!?])\s*\[Source\s*(\d+)(?:,\s*Source\s*(\d+))?\]`): the sentence
group, the two source-number groups, and the position/remaining bookkeeping
of the scan. -/
structure RawClaim where
  claim : List Char
  id1 : ℕ
  id2 : Option ℕ
  pos : ℕ
deriving Repr, DecidableEq

/-- A raw match of `QUOTE_PATTERN` (`"([^"]+)"\s*\[Source\s*(\d+)\]`). -/
structure RawQuote where
  quote : List Char
  id1 : ℕ
  pos : ℕ
deriving Repr, DecidableEq

/-- The optional `(?:,\s*Source\s*(\d+))?` group, tried greedily after the
first source number. -/
def parseSecondSource (s : List Char) : Option (ℕ × List Char) :=
  match s with
  | ',' :: r1 =>
    let r2 := r1.dropWhile Char.isWhitespace
    match stripPrefixCI "source".toList r2 with
    | none => none
    | some r3 =>
      let r4 := r3.dropWhile Char.isWhitespace
      let ds2 := r4.takeWhile Char.isDigit
      if ds2 = [] then none
      else some (parseDigits ds2, r4.dropWhile Char.isDigit)
  | _ => none

/-- Attempt `CLAIM_PATTERN` at the head of `s`.  Each sub-pattern here is
deterministic: `[^.!?]+` greedily stops exactly at the first terminator,
`\s*` stops at the first non-space, `\d+` at the first non-digit, and the
optional group either matches and is followed by `]`, or the whole group is
dropped and `]` must follow the first number directly (if the group matched,
the next character is `,`, so the fallback can only apply when the group did
not match — exactly CPython's backtracking outcome). -/
def matchClaimAt (s : List Char) : Option (List Char × ℕ × Option ℕ × List Char) :=
  let body := s.takeWhile (fun c => !(isTermCh c))
  if body = [] then none
  else
    match s.dropWhile (fun c => !(isTermCh c)) with
    | [] => none
    | t :: rest2 =>
      let rest3 := rest2.dropWhile Char.isWhitespace
      match stripPrefixCI "[source".toList rest3 with
      | none => none
      | some rest4 =>
        let rest5 := rest4.dropWhile Char.isWhitespace
        let ds := rest5.takeWhile Char.isDigit
        if ds = [] then none
        else
          let rest6 := rest5.dropWhile Char.isDigit
          match parseSecondSource rest6 with
          | some (n2, r5) =>
            match r5 with
            | ']' :: r6 => some (body ++ [t], parseDigits ds, some n2, r6)
            | _ => none
          | none =>
            match rest6 with
            | ']' :: r7 => some (body ++ [t], parseDigits ds, none, r7)
            | _ => none

/-- Attempt `QUOTE_PATTERN` at the head of `s`. -/
def matchQuoteAt (s : List Char) : Option (List Char × ℕ × List Char) :=
  match s with
  | '"' :: r1 =>
    let q := r1.takeWhile (fun c => c ≠ '"')
    if q = [] then none
    else
      match r1.dropWhile (fun c => c ≠ '"') with
      | '"' :: r2 =>
        let r3 := r2.dropWhile Char.isWhitespace
        match stripPrefixCI "[source".toList r3 with
        | none => none
        | some r4 =>
          let r5 := r4.dropWhile Char.isWhitespace
          let ds := r5.takeWhile Char.isDigit
          if ds = [] then none
          else
            match r5.dropWhile Char.isDigit with
            | ']' :: r6 => some (q, parseDigits ds, r6)
            | _ => none
      | _ => none
  | _ => none

/-- `finditer` over `CLAIM_PATTERN`: leftmost non-overlapping matches; on a
match the scan resumes after it, otherwise it advances one character.  `fuel`
bounds the recursion and is instantiated with the text length. -/
def scanClaimsGo : ℕ → List Char → ℕ → List RawClaim
  | 0, _, _ => []
  | _ + 1, [], _ => []
  | fuel + 1, c :: rest, pos =>
    match matchClaimAt (c :: rest) with
    | some (claim, n1, n2, remaining) =>
      { claim := claim, id1 := n1, id2 := n2, pos := pos } ::
        scanClaimsGo fuel remaining (pos + ((c :: rest).length - remaining.length))
    | none => scanClaimsGo fuel rest (pos + 1)

/-- `finditer` over `QUOTE_PATTERN`. -/
def scanQuotesGo : ℕ → List Char → ℕ → List RawQuote
  | 0, _, _ => []
  | _ + 1, [], _ => []
  | fuel + 1, c :: rest, pos =>
    match matchQuoteAt (c :: rest) with
    | some (q, n1, remaining) =>
      { quote := q, id1 := n1, pos := pos } ::
        scanQuotesGo fuel remaining (pos + ((c :: rest).length - remaining.length))
    | none => scanQuotesGo fuel rest (pos + 1)

/-- An extracted citation (`ExtractedCitation`; the derived
`source_reference` display string is omitted). -/
structure ExtractedCitation where
  citation_id : ℕ
  claim_text : String
  position : ℕ
  is_quote : Bool := false
deriving Repr, DecidableEq

/-- `CitationVerificationService._extract_citations`: quote citations first,
then claim citations whose position was not already taken by a quote (each
claim match contributing a second citation at the same position when its
optional second source group matched), finally a stable sort by position. -/
def extract_citations (response_text : String) : List ExtractedCitation :=
  let chars := response_text.toList
  let quotes := scanQuotesGo chars.length chars 0
  let quote_cites := quotes.map (fun q =>
    { citation_id := q.id1, claim_text := String.mk q.quote,
      position := q.pos, is_quote := true : ExtractedCitation })
  let seen_positions := quotes.map (fun q => q.pos)
  let claims := scanClaimsGo chars.length chars 0
  let claim_cites := (claims.filter (fun m => m.pos ∉ seen_positions)).flatMap
    (fun m =>
      ({ citation_id := m.id1, claim_text := pyTrim (String.mk m.claim),
         position := m.pos, is_quote := false : ExtractedCitation }) ::
      (match m.id2 with
       | some n2 => [{ citation_id := n2, claim_text := pyTrim (String.mk m.claim),
                       position := m.pos, is_quote := false : ExtractedCitation }]
       | none => []))
  pySortAsc (fun c => c.position) (quote_cites ++ claim_cites)

/-- The index-assignment loop of `_build_source_map` (1-based, primary then
supporting). -/
def build_source_map_go : List ChunkData → ℕ → List (ℕ × ChunkData)
  | [], _ => []
  | c :: rest, idx => (idx, c) :: build_source_map_go rest (idx + 1)

/-- `CitationVerificationService._build_source_map`. -/
def build_source_map (ctx : AssembledContext) : List (ℕ × ChunkData) :=
  build_source_map_go (ctx.primary_chunks ++ ctx.supporting_chunks) 1

def source_map_lookup (m : List (ℕ × ChunkData)) (n : ℕ) : Option ChunkData :=
  (m.find? (fun p => p.1 = n)).map (fun p => p.2)

/-- `CitationVerificationService._find_invalid_references`. -/
def find_invalid_go (smap : List (ℕ × ChunkData)) :
    List ExtractedCitation → List ℕ → List ℕ
  | [], _ => []
  | c :: rest, seen =>
    if source_map_lookup smap c.citation_id = none ∧ c.citation_id ∉ seen then
      c.citation_id :: find_invalid_go smap rest (c.citation_id :: seen)
    else find_invalid_go smap rest seen

def find_invalid_references (cites : List ExtractedCitation)
    (smap : List (ℕ × ChunkData)) : List ℕ :=
  find_invalid_go smap cites []

/-- The literal `"[Source "` prefix emitted before a 1-based index. -/
def sourceTag : List Char := ['[', 'S', 'o', 'u', 'r', 'c', 'e', ' ']

/-- The synthetic response of the round-trip law: for each (sentence, index)
pair, the sentence, a full stop, a space and the citation token
`[Source index]`, blocks concatenated. -/
def claim_blocks : List (List Char × ℕ) → List Char
  | [] => []
  | (b, n) :: rest =>
      b ++ '.' :: ' ' :: (sourceTag ++ (renderNat n ++ ']' :: claim_blocks rest))

theorem matchClaimAt_block (b : List Char) (hbne : b ≠ [])
    (hb : ∀ c ∈ b, isTermCh c = false)
    (ds : List Char) (hds : ∀ c ∈ ds, c.isDigit = true) (hdsne : ds ≠ [])
    (tail : List Char) :
    matchClaimAt (b ++ '.' :: ' ' :: (sourceTag ++ (ds ++ ']' :: tail))) =
      some (b ++ ['.'], parseDigits ds, none, tail) := by
  obtain ⟨d, ds', rfl⟩ : ∃ d ds', ds = d :: ds' := by
    cases ds with
    | nil => exact absurd rfl hdsne
    | cons d ds' => exact ⟨d, ds', rfl⟩
  have hb' : ∀ c ∈ b, (!(isTermCh c)) = true := fun c hc => by
    rw [hb c hc]; rfl
  have hdnw : Char.isWhitespace d = false :=
    isDigit_not_ws (hds d (by simp))
  have hstep : ∀ l : List Char,
      List.dropWhile Char.isWhitespace (' ' :: l) =
        List.dropWhile Char.isWhitespace l := fun l => by
    rw [List.dropWhile_cons, if_pos (by decide)]
  have hstop : ∀ l : List Char,
      List.dropWhile Char.isWhitespace ('[' :: l) = '[' :: l := fun l => by
    rw [List.dropWhile_cons, if_neg (by decide)]
  have hstopd : ∀ l : List Char,
      List.dropWhile Char.isWhitespace (d :: l) = d :: l := fun l => by
    rw [List.dropWhile_cons, if_neg (by simp [hdnw])]
  have hsrc : ∀ l : List Char,
      stripPrefixCI "[source".toList
        ('[' :: 'S' :: 'o' :: 'u' :: 'r' :: 'c' :: 'e' :: l) = some l :=
    fun l => rfl
  have htake : List.takeWhile Char.isDigit (d :: (ds' ++ ']' :: tail)) =
      d :: ds' := by
    rw [show (d :: (ds' ++ ']' :: tail)) = ((d :: ds') ++ (']' :: tail)) by simp]
    exact takeWhile_all_stop (d :: ds') ']' tail hds (by decide)
  have hdropd : List.dropWhile Char.isDigit (d :: (ds' ++ ']' :: tail)) =
      ']' :: tail := by
    rw [show (d :: (ds' ++ ']' :: tail)) = ((d :: ds') ++ (']' :: tail)) by simp]
    exact dropWhile_all_stop (d :: ds') ']' tail hds (by decide)
  have hsecond : parseSecondSource (']' :: tail) = none := rfl
  simp only [matchClaimAt, sourceTag]
  rw [takeWhile_all_stop b '.' _ hb' (by decide),
    dropWhile_all_stop b '.' _ hb' (by decide), if_neg hbne]
  dsimp only
  simp only [List.cons_append, List.nil_append, List.append_assoc]
  simp only [hstep, hstop, hsrc, hstopd, htake, hdropd, hsecond]
  rw [if_neg (by simp)]

/-- The length of one synthetic block. -/
def blockLen (b : List Char) (n : ℕ) : ℕ := b.length + 11 + (renderNat n).length

theorem claim_blocks_cons_length (b : List Char) (n : ℕ)
    (rest : List (List Char × ℕ)) :
    (claim_blocks ((b, n) :: rest)).length =
      blockLen b n + (claim_blocks rest).length := by
  simp [claim_blocks, blockLen, sourceTag]
  omega

/-- The expected raw claim matches for a block list, with positions. -/
def annotateClaims : List (List Char × ℕ) → ℕ → List RawClaim
  | [], _ => []
  | (b, n) :: rest, pos =>
    { claim := b ++ ['.'], id1 := n, id2 := none, pos := pos } ::
      annotateClaims rest (pos + blockLen b n)

/-- A well-formed synthetic sentence/index pair: non-empty sentence without
sentence terminators or double quotes, 1-based index. -/
def goodPair (p : List Char × ℕ) : Prop :=
  p.1 ≠ [] ∧ (∀ c ∈ p.1, isTermCh c = false ∧ c ≠ '"') ∧ 1 ≤ p.2

theorem scanClaims_blocks :
    ∀ (ps : List (List Char × ℕ)) (fuel pos : ℕ),
      (∀ p ∈ ps, goodPair p) →
      (claim_blocks ps).length ≤ fuel →
      scanClaimsGo fuel (claim_blocks ps) pos = annotateClaims ps pos
  | [], fuel, pos, _, _ => by
    cases fuel <;> rfl
  | (b, n) :: rest, fuel, pos, hgood, hfuel => by
    obtain ⟨hbne, hbchars, hn⟩ := hgood (b, n) (by simp)
    obtain ⟨c0, b', rfl⟩ : ∃ c0 b', b = c0 :: b' := by
      cases b with
      | nil => exact absurd rfl hbne
      | cons c0 b' => exact ⟨c0, b', rfl⟩
    have hlen := claim_blocks_cons_length (c0 :: b') n rest
    have hblock1 : 1 ≤ blockLen (c0 :: b') n := by
      simp [blockLen]
      omega
    cases fuel with
    | zero =>
      exfalso
      rw [hlen] at hfuel
      omega
    | succ f =>
      have hmatch := matchClaimAt_block (c0 :: b') hbne
        (fun c hc => (hbchars c hc).1) (renderNat n) (renderNat_digits n)
        (renderNat_ne_nil n hn) (claim_blocks rest)
      show scanClaimsGo (f + 1)
        ((c0 :: b') ++ '.' :: ' ' :: (sourceTag ++ (renderNat n ++ ']' :: claim_blocks rest)))
        pos = _
      rw [show ((c0 :: b') ++ '.' :: ' ' ::
          (sourceTag ++ (renderNat n ++ ']' :: claim_blocks rest))) =
          c0 :: (b' ++ '.' :: ' ' ::
            (sourceTag ++ (renderNat n ++ ']' :: claim_blocks rest))) from rfl]
      simp only [scanClaimsGo]
      rw [show (c0 :: (b' ++ '.' :: ' ' ::
          (sourceTag ++ (renderNat n ++ ']' :: claim_blocks rest)))) =
          ((c0 :: b') ++ '.' :: ' ' ::
            (sourceTag ++ (renderNat n ++ ']' :: claim_blocks rest))) from rfl]
      rw [hmatch]
      dsimp only
      have harith : ((c0 :: b') ++ '.' :: ' ' ::
          (sourceTag ++ (renderNat n ++ ']' :: claim_blocks rest))).length -
          (claim_blocks rest).length = blockLen (c0 :: b') n := by
        have : ((c0 :: b') ++ '.' :: ' ' ::
            (sourceTag ++ (renderNat n ++ ']' :: claim_blocks rest))) =
            claim_blocks (((c0 :: b'), n) :: rest) := rfl
        rw [this, hlen]
        omega
      rw [harith]
      have hfuel' : (claim_blocks rest).length ≤ f := by
        rw [hlen] at hfuel
        omega
      rw [scanClaims_blocks rest f (pos + blockLen (c0 :: b') n)
        (fun p hp => hgood p (by simp [hp])) hfuel']
      rw [parseDigits_renderNat n]
      rfl

theorem matchQuoteAt_no_quote (c : Char) (hc : c ≠ '"') (rest : List Char) :
    matchQuoteAt (c :: rest) = none := by
  unfold matchQuoteAt
  split
  · rename_i r1 heq
    injection heq with h1 _
    exact absurd h1 hc
  · rfl

theorem scanQuotes_none :
    ∀ (fuel : ℕ) (s : List Char) (pos : ℕ), (∀ c ∈ s, c ≠ '"') →
      scanQuotesGo fuel s pos = []
  | 0, _, _, _ => rfl
  | _ + 1, [], _, _ => rfl
  | fuel + 1, c :: rest, pos, h => by
    simp only [scanQuotesGo]
    rw [matchQuoteAt_no_quote c (h c (by simp)) rest]
    exact scanQuotes_none fuel rest (pos + 1) (fun c hc => h c (by simp [hc]))

theorem isDigit_ne_quote {c : Char} (h : c.isDigit = true) : c ≠ '"' := by
  intro h2
  subst h2
  exact absurd h (by decide)

theorem claim_blocks_no_quote :
    ∀ ps : List (List Char × ℕ), (∀ p ∈ ps, ∀ c ∈ p.1, c ≠ '"') →
      ∀ c ∈ claim_blocks ps, c ≠ '"'
  | [], _, c, hc => by simp [claim_blocks] at hc
  | (b, n) :: rest, h, c, hc => by
    simp only [claim_blocks, List.mem_append, List.mem_cons] at hc
    rcases hc with hb | rfl | rfl | htag | hdig | rfl | h6
    · exact h (b, n) (by simp) c hb
    · decide
    · decide
    · exact (by decide : ∀ x ∈ sourceTag, x ≠ '"') c htag
    · exact isDigit_ne_quote (renderNat_digits n c hdig)
    · decide
    · exact claim_blocks_no_quote rest (fun p hp => h p (by simp [hp])) c h6

theorem annotateClaims_id2_none :
    ∀ (ps : List (List Char × ℕ)) (pos : ℕ),
      ∀ m ∈ annotateClaims ps pos, m.id2 = none
  | [], _, m, hm => by simp [annotateClaims] at hm
  | (b, n) :: rest, pos, m, hm => by
    simp only [annotateClaims, List.mem_cons] at hm
    rcases hm with rfl | hm
    · rfl
    · exact annotateClaims_id2_none rest _ m hm

theorem annotateClaims_ids :
    ∀ (ps : List (List Char × ℕ)) (pos : ℕ),
      (annotateClaims ps pos).map (fun m => m.id1) = ps.map (fun p => p.2)
  | [], _ => rfl
  | (b, n) :: rest, pos => by
    simp only [annotateClaims, List.map_cons]
    rw [annotateClaims_ids rest _]

theorem annotateClaims_length :
    ∀ (ps : List (List Char × ℕ)) (pos : ℕ),
      (annotateClaims ps pos).length = ps.length
  | [], _ => rfl
  | (b, n) :: rest, pos => by
    simp only [annotateClaims, List.length_cons]
    rw [annotateClaims_length rest _]

theorem annotateClaims_pos_le :
    ∀ (ps : List (List Char × ℕ)) (pos : ℕ),
      ∀ m ∈ annotateClaims ps pos, pos ≤ m.pos
  | [], _, m, hm => by simp [annotateClaims] at hm
  | (b, n) :: rest, pos, m, hm => by
    simp only [annotateClaims, List.mem_cons] at hm
    rcases hm with rfl | hm
    · exact le_refl _
    · exact le_trans (Nat.le_add_right _ _)
        (annotateClaims_pos_le rest _ m hm)

theorem annotateClaims_pos_sorted :
    ∀ (ps : List (List Char × ℕ)) (pos : ℕ),
      (annotateClaims ps pos).Pairwise (fun x y => x.pos ≤ y.pos)
  | [], _ => by simp [annotateClaims]
  | (b, n) :: rest, pos => by
    simp only [annotateClaims]
    rw [List.pairwise_cons]
    refine ⟨?_, annotateClaims_pos_sorted rest _⟩
    intro m hm
    exact le_trans (Nat.le_add_right _ _) (annotateClaims_pos_le rest _ m hm)

theorem flatMap_eq_map {α β : Type} (f : α → List β) (g : α → β) :
    ∀ l : List α, (∀ a ∈ l, f a = [g a]) → l.flatMap f = l.map g
  | [], _ => rfl
  | a :: l, h => by
    simp only [List.flatMap_cons, List.map_cons, h a (by simp)]
    rw [flatMap_eq_map f g l (fun x hx => h x (by simp [hx]))]
    rfl

/-- The extraction of a synthetic response: exactly one (single-source,
non-quote) citation per block, in block order. -/
theorem extract_citations_blocks (ps : List (List Char × ℕ))
    (hgood : ∀ p ∈ ps, goodPair p) :
    extract_citations (String.mk (claim_blocks ps)) =
      (annotateClaims ps 0).map (fun m =>
        ({ citation_id := m.id1, claim_text := pyTrim (String.mk m.claim),
           position := m.pos, is_quote := false } : ExtractedCitation)) := by
  have hnq : ∀ c ∈ claim_blocks ps, c ≠ '"' :=
    claim_blocks_no_quote ps (fun p hp c hc => ((hgood p hp).2.1 c hc).2)
  simp only [extract_citations]
  have hchars : (String.mk (claim_blocks ps)).toList = claim_blocks ps := rfl
  rw [hchars]
  rw [scanQuotes_none _ _ _ hnq]
  rw [scanClaims_blocks ps _ 0 hgood (le_refl _)]
  simp only [List.map_nil, List.nil_append]
  rw [List.filter_eq_self.mpr (by intro m _; simp)]
  rw [flatMap_eq_map _
    (fun m => ({ citation_id := m.id1, claim_text := pyTrim (String.mk m.claim),
                 position := m.pos, is_quote := false } : ExtractedCitation))
    (annotateClaims ps 0)
    (by
      intro m hm
      rw [annotateClaims_id2_none ps 0 m hm])]
  apply pySortAsc_of_sorted
  rw [List.pairwise_map]
  exact annotateClaims_pos_sorted ps 0

/-- The spec-side synthetic sentence/index pairing (1-based). -/
def indexedSentences : List String → ℕ → List (List Char × ℕ)
  | [], _ => []
  | s :: rest, i => (s.toList, i) :: indexedSentences rest (i + 1)

/-- The synthetic response of the round-trip claim: for each sentence `sᵢ`
(1-based), the block `sᵢ. [Source i]`. -/
def synthetic_response (ss : List String) : String :=
  String.mk (claim_blocks (indexedSentences ss 1))

theorem indexedSentences_ids :
    ∀ (ss : List String) (i : ℕ),
      (indexedSentences ss i).map (fun p => p.2) = List.range' i ss.length
  | [], _ => rfl
  | s :: rest, i => by
    simp only [indexedSentences, List.map_cons, List.length_cons,
      List.range'_succ]
    rw [indexedSentences_ids rest (i + 1)]

theorem indexedSentences_length :
    ∀ (ss : List String) (i : ℕ), (indexedSentences ss i).length = ss.length
  | [], _ => rfl
  | s :: rest, i => by
    simp only [indexedSentences, List.length_cons]
    rw [indexedSentences_length rest (i + 1)]

theorem indexedSentences_good (ss : List String)
    (hgood : ∀ s ∈ ss, s.toList ≠ [] ∧
      ∀ c ∈ s.toList, isTermCh c = false ∧ c ≠ '"') :
    ∀ i, 1 ≤ i → ∀ p ∈ indexedSentences ss i, goodPair p := by
  induction ss with
  | nil => intro i _ p hp; simp [indexedSentences] at hp
  | cons s rest ih =>
    intro i hi p hp
    simp only [indexedSentences, List.mem_cons] at hp
    rcases hp with rfl | hp
    · exact ⟨(hgood s (by simp)).1, (hgood s (by simp)).2, hi⟩
    · exact ih (fun x hx => hgood x (by simp [hx])) (i + 1) (by omega) p hp

theorem source_map_lookup_go :
    ∀ (chunks : List ChunkData) (start i : ℕ), i < chunks.length →
      source_map_lookup (build_source_map_go chunks start) (start + i) =
        chunks.get? i
  | [], start, i, h => by simp at h
  | c :: rest, start, i, h => by
    cases i with
    | zero =>
      simp [build_source_map_go, source_map_lookup, List.find?]
    | succ i =>
      simp only [build_source_map_go, source_map_lookup, List.find?_cons]
      rw [show (decide (start = start + (i + 1))) = false from
        decide_eq_false (by omega)]
      have := source_map_lookup_go rest (start + 1) i
        (by simpa using Nat.lt_of_succ_lt_succ h)
      rw [show start + (i + 1) = start + 1 + i by omega]
      simpa [source_map_lookup] using this

theorem find_invalid_go_nil (smap : List (ℕ × ChunkData)) :
    ∀ (cites : List ExtractedCitation) (seen : List ℕ),
      (∀ c ∈ cites, source_map_lookup smap c.citation_id ≠ none) →
      find_invalid_go smap cites seen = []
  | [], _, _ => rfl
  | c :: rest, seen, h => by
    simp only [find_invalid_go]
    rw [if_neg (by
      intro hcon
      exact absurd hcon.1 (h c (by simp)))]
    exact find_invalid_go_nil smap rest seen (fun x hx => h x (by simp [hx]))

/-! ## Claim C2: citation extraction round-trip -/

/-- C2: for a packet with N sources and any N synthetic sentences (non-empty,
free of sentence terminators and quotes), the response holding one sentence
ending in punctuation followed by `[Source i]` for each i ∈ [1, N] yields
exactly N extracted citations with ids 1..N in order; the rebuilt source map
resolves every index i to the i-th chunk of primary ‖ supporting; and there
are zero invalid references. -/
theorem citation_roundtrip (ctx : AssembledContext) (ss : List String)
    (hN : ss.length = (ctx.primary_chunks ++ ctx.supporting_chunks).length)
    (hgood : ∀ s ∈ ss, s.toList ≠ [] ∧
      ∀ c ∈ s.toList, isTermCh c = false ∧ c ≠ '"') :
    (extract_citations (synthetic_response ss)).map (fun c => c.citation_id) =
      List.range' 1 ss.length ∧
    (extract_citations (synthetic_response ss)).length = ss.length ∧
    (∀ i : ℕ, i < (ctx.primary_chunks ++ ctx.supporting_chunks).length →
      source_map_lookup (build_source_map ctx) (i + 1) =
        (ctx.primary_chunks ++ ctx.supporting_chunks).get? i) ∧
    find_invalid_references (extract_citations (synthetic_response ss))
      (build_source_map ctx) = [] := by
  have hpairs := indexedSentences_good ss hgood 1 (le_refl 1)
  have hsy : synthetic_response ss =
      String.mk (claim_blocks (indexedSentences ss 1)) := rfl
  have hex := extract_citations_blocks (indexedSentences ss 1) hpairs
  have hids : (extract_citations (synthetic_response ss)).map
      (fun c => c.citation_id) = List.range' 1 ss.length := by
    rw [hsy, hex, List.map_map]
    have : ((fun c : ExtractedCitation => c.citation_id) ∘
        (fun m : RawClaim =>
          ({ citation_id := m.id1, claim_text := pyTrim (String.mk m.claim),
             position := m.pos, is_quote := false } : ExtractedCitation))) =
        fun m : RawClaim => m.id1 := rfl
    rw [this, annotateClaims_ids, indexedSentences_ids]
  have hlookup : ∀ i : ℕ,
      i < (ctx.primary_chunks ++ ctx.supporting_chunks).length →
      source_map_lookup (build_source_map ctx) (i + 1) =
        (ctx.primary_chunks ++ ctx.supporting_chunks).get? i := by
    intro i hi
    have := source_map_lookup_go
      (ctx.primary_chunks ++ ctx.supporting_chunks) 1 i hi
    rw [show (1 : ℕ) + i = i + 1 by omega] at this
    exact this
  refine ⟨hids, ?_, hlookup, ?_⟩
  · rw [hsy, hex, List.length_map, annotateClaims_length, indexedSentences_length]
  · unfold find_invalid_references
    apply find_invalid_go_nil
    intro c hc
    have hmem : c.citation_id ∈ List.range' 1 ss.length := by
      rw [← hids]
      exact List.mem_map_of_mem _ hc
    rw [List.mem_range'] at hmem
    obtain ⟨j, hj, heq⟩ := hmem
    rw [heq, show (1 : ℕ) + 1 * j = j + 1 by omega, hlookup j (by omega)]
    intro hnone
    rw [List.get?_eq_none] at hnone
    omega

def sampleChunkA : ChunkData :=
  { chunk_id := 11, resource_id := 1, title := "Intro QC", source_type := "pdf",
    content := "Qubits enable quantum computing", score := 0.9,
    token_count := 7, section_title := none, page := none }

def sampleChunkB : ChunkData :=
  { chunk_id := 22, resource_id := 2, title := "Bits", source_type := "txt",
    content := "Classical bits take two values", score := 0.4,
    token_count := 7, section_title := none, page := none }

def sampleContext : AssembledContext :=
  { primary_chunks := [sampleChunkA], supporting_chunks := [sampleChunkB],
    total_tokens := 214, source_count := 2 }

set_option maxRecDepth 100000 in
theorem citation_roundtrip_witness :
    (extract_citations (synthetic_response
        ["Quantum computing uses qubits", "Classical bits differ"])).map
      (fun c => c.citation_id) = List.range' 1 2 ∧
    find_invalid_references
      (extract_citations (synthetic_response
        ["Quantum computing uses qubits", "Classical bits differ"]))
      (build_source_map sampleContext) = [] := by
  have h := citation_roundtrip sampleContext
    ["Quantum computing uses qubits", "Classical bits differ"]
    (by decide) (by decide)
  exact ⟨by simpa using h.1, h.2.2.2⟩

/-! ## Full citation verification (`verify_response`) -/

/-- `VerifiedCitation` (the `matching_text` excerpt of `_find_matching_text`
is display-only and omitted; no claim refers to it). -/
structure VerifiedCitationM where
  citation_id : ℕ
  claim_text : String
  source_title : String
  source_type : String
  chunk_id : Option ℕ
  resource_id : Option ℕ
  verified : Bool
  overlap_score : ℚ
  verification_notes : String
deriving Repr, DecidableEq

/-- `CitationVerificationService._verify_citation` with
`MIN_OVERLAP_SCORE = 0.3` and `HIGH_CONFIDENCE_THRESHOLD = 0.7`. -/
def verify_citation (smap : List (ℕ × ChunkData))
    (cite : ExtractedCitation) : VerifiedCitationM :=
  match source_map_lookup smap cite.citation_id with
  | none =>
    { citation_id := cite.citation_id, claim_text := cite.claim_text,
      source_title := "Unknown", source_type := "unknown",
      chunk_id := none, resource_id := none, verified := false,
      overlap_score := 0,
      verification_notes := "Referenced source was not provided in context" }
  | some source =>
    let overlap := calculate_overlap cite.claim_text source.content cite.is_quote
    let verified := (0.3 : ℚ) ≤ overlap
    { citation_id := cite.citation_id, claim_text := cite.claim_text,
      source_title := source.title, source_type := source.source_type,
      chunk_id := some source.chunk_id, resource_id := some source.resource_id,
      verified := verified, overlap_score := overlap,
      verification_notes :=
        if verified then
          if (0.7 : ℚ) ≤ overlap then "High confidence match"
          else "Partial match - may be paraphrased"
        else "Could not verify claim against source content" }

/-- A `CITATION_PATTERN` (`\[Source\s*(\d+)\]`, case-insensitive) hit at the
head of a character list. -/
def matchSourceTokenAt (s : List Char) : Bool :=
  match stripPrefixCI "[source".toList s with
  | none => false
  | some r =>
    let r2 := r.dropWhile Char.isWhitespace
    let ds := r2.takeWhile Char.isDigit
    if ds = [] then false
    else
      match r2.dropWhile Char.isDigit with
      | ']' :: _ => true
      | _ => false

/-- `CITATION_PATTERN.search`. -/
def containsSourceToken (s : List Char) : Bool :=
  s.tails.any (fun t => matchSourceTokenAt t)

/-- Case-insensitive substring search (`re.search` on a literal pattern with
`re.IGNORECASE`). -/
def pyInCI (needle : String) (hay : List Char) : Bool :=
  (hay.map Char.toLower).tails.any (fun t => needle.toList.isPrefixOf t)

/-- `\d+%`: some digit immediately followed by `%`. -/
def hasDigitPercent (s : List Char) : Bool :=
  s.tails.any (fun t =>
    match t with
    | c1 :: '%' :: _ => c1.isDigit
    | _ => false)

/-- `\d+ percent`: some digit immediately followed by `" percent"`. -/
def hasDigitPercentWord (s : List Char) : Bool :=
  s.tails.any (fun t =>
    match t with
    | c1 :: rest => c1.isDigit && " percent".toList.isPrefixOf (rest.map Char.toLower)
    | _ => false)

/-- The factual-language indicator list of `_find_uncited_claims`. -/
def sentence_has_indicator (s : List Char) : Bool :=
  pyInCI "according to" s || pyInCI "research shows" s ||
  pyInCI "studies indicate" s || pyInCI "data suggests" s ||
  pyInCI "it is known that" s || pyInCI "evidence shows" s ||
  pyInCI "results demonstrate" s || pyInCI "findings reveal" s ||
  hasDigitPercent s || hasDigitPercentWord s ||
  pyInCI "the study found" s || pyInCI "experiments show" s

mutual

/-- `re.split(r'(?<=[.!?])\s+', text)`: split at whitespace runs preceded by
a sentence terminator; `splitSentSkip` consumes the run. -/
def splitSentGo : List Char → List Char → List (List Char)
  | [], acc => [acc.reverse]
  | c :: rest, acc =>
    if Char.isWhitespace c && ((acc.head?.map isTermCh).getD false) then
      acc.reverse :: splitSentSkip rest
    else splitSentGo rest (c :: acc)

def splitSentSkip : List Char → List (List Char)
  | [] => [[]]
  | c :: rest =>
    if Char.isWhitespace c then splitSentSkip rest
    else splitSentGo rest [c]

end

def split_sentences (text : String) : List (List Char) :=
  splitSentGo text.toList []

/-- `CitationVerificationService._find_uncited_claims` (the computed
`cited_positions` set is unused by the Python loop and omitted). -/
def find_uncited_claims (response_text : String) : List String :=
  ((split_sentences response_text).map (fun l => pyTrim (String.mk l))).filter
    (fun s => s ≠ "" ∧ containsSourceToken s.toList = false ∧
      sentence_has_indicator s.toList = true)

/-- `CitationVerificationService._response_makes_claims`. -/
def response_makes_claims (response_text : String) : Bool :=
  let lower := (pyLower response_text).toList
  let no_info : List String :=
    ["i don\x27t have", "i cannot find", "not available in", "no information",
     "not in the documents", "not covered in", "i couldn\x27t find",
     "no relevant"]
  if (no_info.any (fun p => pyInCI p lower)) ∧ response_text.length < 500
  then false
  else 100 < response_text.length

/-- `VerificationResult`. -/
structure VerificationResultM where
  verified_citations : List VerifiedCitationM := []
  unverified_claims : List String := []
  total_claims : ℕ := 0
  verified_count : ℕ := 0
  verification_score : ℚ := 0
  has_hallucinations : Bool := false
  hallucination_details : List String := []
  warnings : List String := []
deriving Repr, DecidableEq

/-- `CitationVerificationService.verify_response`. -/
def verify_response (response_text : String) (ctx : AssembledContext)
    (strict_mode : Bool) : VerificationResultM :=
  let smap := build_source_map ctx
  let extracted := extract_citations response_text
  let verified_citations := extracted.map (verify_citation smap)
  let verified_count := (verified_citations.filter (fun v => v.verified)).length
  let uncited := if strict_mode then find_uncited_claims response_text else []
  let invalid_refs := find_invalid_references extracted smap
  let score_and_more : ℚ × Bool × List String :=
    if 0 < extracted.length then
      ((verified_count : ℚ) / extracted.length, false, [])
    else if response_makes_claims response_text then
      (0, true, ["Response makes claims but has no citations"])
    else (1, false, [])
  let low_conf := (verified_citations.filter
    (fun v => v.verified ∧ v.overlap_score < (0.7 : ℚ))).length
  { verified_citations := verified_citations,
    unverified_claims := uncited,
    total_claims := extracted.length,
    verified_count := verified_count,
    verification_score := score_and_more.1,
    has_hallucinations := uncited ≠ [] ∨ invalid_refs ≠ [] ∨ score_and_more.2.1,
    hallucination_details :=
      (uncited.take 5).map (fun c => "Uncited claim: " ++ pySlice c 100 ++ "...") ++
        invalid_refs.map (fun r =>
          "Invalid source reference: [Source " ++ String.mk (renderNat r) ++ "]"),
    warnings :=
      (if invalid_refs ≠ [] then
        ["Response references sources that were not provided"] else []) ++
      score_and_more.2.2 ++
      (if 0 < low_conf then
        ["Some citations have low overlap scores (may be paraphrased)"] else []) }

/-! ## Message generation pipeline
(`app/services/message_generation.py`, `app/tasks/message_generation.py`) -/

/-- `PromptEngineeringService.get_no_context_response`. -/
def no_context_response (query : String) : String :=
  "I couldn\x27t find any relevant information in your documents to answer: \"" ++
    query ++
    "\"\n\nThis could mean:\n1. The topic isn\x27t covered in your uploaded documents\n2. The question might need to be rephrased\n3. You may need to upload documents containing this information\n\nWould you like to:\n- Rephrase your question?\n- Upload relevant documents?\n- Ask about a different topic?"

/-- `GeneratedMessage`, with the fields the claims observe. -/
structure GeneratedMessageM where
  content : String
  sources : List ℕ := []
  verification : Option VerificationResultM := none
  warnings : List String := []
deriving Repr, DecidableEq

/-- `MessageGenerationService.generate_response`.  The retrieval fan-out is
abstracted into `search_results` (the list `hybrid_search` returned) and the
main LLM call into the `llm` oracle (prompt construction does not influence
any modelled output).  On empty retrieval the canned no-context reply is
returned; on an LLM exception the error text is returned, with no citation
verification (the verifier runs only on the success path).  Python collects
`source_ids` through a set; insertion order stands in for the set's
enumeration order. -/
def generate_response (db : ResourceDb) (oracle : ConflictOracle)
    (search_results : List SearchResult) (llm : Except String String)
    (query : String) (max_context_tokens : ℕ) (verify_citations : Bool) :
    GeneratedMessageM :=
  if search_results = [] then
    { content := no_context_response query,
      warnings := ["No relevant documents found for this query"] }
  else
    let reranked := rerank db oracle search_results query true
    let context := assemble_context reranked max_context_tokens true
    let limited_warnings :=
      if context.source_count < 3 then
        ["Limited sources available - answer may be incomplete"]
      else []
    match llm with
    | .error e =>
      { content := "I encountered an error generating a response: " ++ e,
        warnings := ["LLM call failed"] }
    | .ok llm_response =>
      let verification :=
        if verify_citations then some (verify_response llm_response context true)
        else none
      let vwarnings :=
        match verification with
        | some v =>
          (if v.has_hallucinations then v.hallucination_details.take 3 else []) ++
            v.warnings
        | none => []
      { content := llm_response,
        sources := ((context.primary_chunks ++ context.supporting_chunks).map
          (fun c => c.resource_id)).dedup,
        verification := verification,
        warnings := limited_warnings ++ vwarnings }

/-- The persisted message row, as `generate_response_async` leaves it. -/
structure MessageRecord where
  status : String
  content : String
  error_message : Option String
deriving Repr, DecidableEq

/-- The Celery task `generate_response_async`: set the message streaming, run
the pipeline, then write the result with `status = "complete"` and a cleared
`error_message`.  The task's `except` branch (which writes `status = "error"`)
fires only when an exception escapes the pipeline; `generate_response`
catches the LLM failure internally and returns normally, so that branch is
unreachable for LLM failures.  `none` models the missing-message early
return. -/
def generate_response_async (message_exists : Bool) (db : ResourceDb)
    (oracle : ConflictOracle) (search_results : List SearchResult)
    (llm : Except String String) (query : String) (max_context_tokens : ℕ)
    (verify_citations : Bool) : Option MessageRecord :=
  if message_exists then
    let result := generate_response db oracle search_results llm query
      max_context_tokens verify_citations
    some { status := "complete", content := result.content,
           error_message := none }
  else none

/-! ## Claim C5: LLM failure handling and the persisted status -/

/-- C5 (code bug): when the LLM call fails with any non-empty retrieval, the
pipeline returns the error text as the content and never invokes the citation
verifier — but the async task persists the assistant message with
`status = "complete"` (and a cleared `error_message`), not `status = "error"`
as the claim and §4.6/§7 of the spec require, because `generate_response`
swallows the exception before the task's error branch can see it. -/
theorem llm_failure_persists_complete (db : ResourceDb)
    (oracle : ConflictOracle) (search_results : List SearchResult)
    (e query : String) (max_context_tokens : ℕ) (verify_citations : Bool)
    (hne : search_results ≠ []) :
    (generate_response db oracle search_results (Except.error e) query
        max_context_tokens verify_citations).content =
      "I encountered an error generating a response: " ++ e ∧
    (generate_response db oracle search_results (Except.error e) query
        max_context_tokens verify_citations).verification = none ∧
    generate_response_async true db oracle search_results (Except.error e)
        query max_context_tokens verify_citations =
      some { status := "complete",
             content := "I encountered an error generating a response: " ++ e,
             error_message := none } ∧
    ∀ rec, generate_response_async true db oracle search_results
        (Except.error e) query max_context_tokens verify_citations =
          some rec → rec.status ≠ "error" := by
  have hgen : generate_response db oracle search_results (Except.error e) query
      max_context_tokens verify_citations =
      { content := "I encountered an error generating a response: " ++ e,
        warnings := ["LLM call failed"] } := by
    unfold generate_response
    rw [if_neg hne]
  have hasync : generate_response_async true db oracle search_results
      (Except.error e) query max_context_tokens verify_citations =
      some { status := "complete",
             content := "I encountered an error generating a response: " ++ e,
             error_message := none } := by
    unfold generate_response_async
    rw [if_pos rfl, hgen]
  refine ⟨by rw [hgen], by rw [hgen], hasync, ?_⟩
  intro rec hrec
  rw [hasync] at hrec
  injection hrec with h
  rw [← h]
  show ("complete" : String) ≠ "error"
  decide

theorem llm_failure_persists_complete_witness :
    ([sampleResult1] ≠ ([] : List SearchResult)) ∧
    generate_response_async true sampleDb (fun _ _ => false) [sampleResult1]
        (Except.error "connection refused") "alpha" 2000 true =
      some { status := "complete",
             content := "I encountered an error generating a response: " ++
               "connection refused",
             error_message := none } :=
  ⟨by simp,
   (llm_failure_persists_complete sampleDb (fun _ _ => false) [sampleResult1]
     "connection refused" "alpha" 2000 true (by simp)).2.2.1⟩

end Docify
